import Mathlib

/-!
Verification of the smart-schema-validator engine (`src/validator.ts`,
`src/rules.ts`, `src/types.ts`).

The embedding models JavaScript runtime values as the inductive `JValue`
(`undef` is the `undefined` marker, `null` the null marker, `nan` the NaN
number), schemas as association lists of field specifications, and the
`SmartValidator.validate` / `validateField` methods as a fuel-indexed pair of
mutually recursive functions.  The fuel only bounds the nesting depth of the
schema (the TypeScript recursion descends into strictly smaller schema
fragments at every nested call), and the public wrappers `validate` and
`validateField` instantiate the fuel with `sizeOf` of the schema argument,
which is strictly larger than the size of every fragment reachable from it;
the stability theorems further below show the fuel value is irrelevant once it
exceeds the schema size, so the wrappers compute exactly the TypeScript
semantics.  Machine numbers are modelled as `Int` (no claim touches float
behaviour) with `nan` kept as a separate constructor because
`validateType` distinguishes it (`typeof value === "number" && !isNaN(value)`).
-/

/-- Model of a JavaScript runtime value, as far as the validator inspects it. -/
inductive JValue where
  | undef : JValue
  | null : JValue
  | bool (b : Bool) : JValue
  | num (n : Int) : JValue
  | nan : JValue
  | str (s : String) : JValue
  | arr (elems : List JValue) : JValue
  | obj (entries : List (String × JValue)) : JValue
deriving Repr

/-- `value === null`. -/
def isNull : JValue → Bool
  | .null => true
  | _ => false

/-- `value === undefined`. -/
def isUndef : JValue → Bool
  | .undef => true
  | _ => false

/-- `typeof value === "string"`. -/
def isStr : JValue → Bool
  | .str _ => true
  | _ => false

/-- `typeof value === "number"` (NaN is a number in JavaScript). -/
def isNumeric : JValue → Bool
  | .num _ => true
  | .nan => true
  | _ => false

/-- `isNaN(value)` restricted to numeric values: only the NaN marker. -/
def isNaNv : JValue → Bool
  | .nan => true
  | _ => false

/-- `typeof value === "boolean"`. -/
def isBool : JValue → Bool
  | .bool _ => true
  | _ => false

/-- `Array.isArray(value)`. -/
def isArr : JValue → Bool
  | .arr _ => true
  | _ => false

/-- `typeof value === "object"`: true for plain objects, arrays and `null`. -/
def typeofIsObject : JValue → Bool
  | .null => true
  | .arr _ => true
  | .obj _ => true
  | _ => false

/-- Lookup in an object entry list (first matching key); an absent key and a
key stored with value `undefined` are indistinguishable, exactly as
`o[key] === undefined` is in JavaScript. -/
def objGetKey : List (String × JValue) → String → JValue
  | [], _ => .undef
  | (k, v) :: rest, key => if k == key then v else objGetKey rest key

/-- Property read `value[key]`: association lookup on objects, `undefined`
otherwise (the validator is only ever handed object-shaped data). -/
def JValue.getKey : JValue → String → JValue
  | .obj entries, key => objGetKey entries key
  | _, _ => JValue.undef

/-- The key/value pairs enumerated by `for (const k in data)`.  JavaScript
objects cannot carry duplicate keys, so only entry lists with pairwise
distinct keys correspond to real inputs. -/
def JValue.entriesOf : JValue → List (String × JValue)
  | .obj entries => entries
  | _ => []

/-- Property assignment `result[key] = v`: overwrite in place if the key is
present (JavaScript keeps the original insertion position), append otherwise. -/
def setKey : List (String × JValue) → String → JValue → List (String × JValue)
  | [], key, v => [(key, v)]
  | (k, w) :: rest, key, v =>
    if k == key then (k, v) :: rest else (k, w) :: setKey rest key v

/- `JSON.stringify`, as used by `rules.array.unique` to compare items.
String escaping is simplified to plain quote-wrapping (no claim involves
strings containing quote or backslash characters); `undefined` is rendered by
a marker that `JSON.stringify` can never output, preserving distinctness, and
`NaN` serialises to `null` as in JavaScript.  Object properties with
`undefined` values are skipped and `undefined` array elements become `null`,
as `JSON.stringify` does. -/
mutual

/-- `JSON.stringify(value)` (see the comment above). -/
def jsonStringify : JValue → String
  | .undef => "\x01undefined"
  | .null => "null"
  | .bool true => "true"
  | .bool false => "false"
  | .num n => toString n
  | .nan => "null"
  | .str s => "\"" ++ s ++ "\""
  | .arr elems => "[" ++ jsonStringifyArr elems ++ "]"
  | .obj entries => "\x7b" ++ jsonStringifyObj entries ++ "\x7d"

/-- Comma-joined serialisation of array elements. -/
def jsonStringifyArr : List JValue → String
  | [] => ""
  | [.undef] => "null"
  | [v] => jsonStringify v
  | .undef :: rest => "null" ++ "," ++ jsonStringifyArr rest
  | v :: rest => jsonStringify v ++ "," ++ jsonStringifyArr rest

/-- Comma-joined serialisation of object properties. -/
def jsonStringifyObj : List (String × JValue) → String
  | [] => ""
  | (k, v) :: rest =>
    match v with
    | .undef => jsonStringifyObj rest
    | _ =>
      match rest with
      | [] => "\"" ++ k ++ "\":" ++ jsonStringify v
      | _ => "\"" ++ k ++ "\":" ++ jsonStringify v ++ "," ++ jsonStringifyObj rest

end

/-- The six type tags of `SchemaField.type`. -/
inductive FieldType where
  | string | number | boolean | object | array | any
deriving Repr, DecidableEq

/-- Printed name of a type tag, for the type-mismatch message. -/
def FieldType.name : FieldType → String
  | .string => "string"
  | .number => "number"
  | .boolean => "boolean"
  | .object => "object"
  | .array => "array"
  | .any => "any"

/-- A rule message: either a literal string or a `(value, fieldName)` function. -/
inductive RuleMessage where
  | lit (s : String) : RuleMessage
  | fn (f : JValue → String → String) : RuleMessage

/-- `ValidationRule` from `types.ts`: a predicate plus a message. -/
structure ValidationRule where
  validate : JValue → Bool
  message : RuleMessage

/-- Evaluating a rule message against the offending value and field name. -/
def evalMessage : RuleMessage → JValue → String → String
  | .lit s, _, _ => s
  | .fn f, value, fieldName => f value fieldName

/-- A `default` schema entry: a literal value or a zero-argument function
(`typeof defaultValue === "function"` distinguishes the two at runtime). -/
inductive DefaultValue where
  | val (v : JValue) : DefaultValue
  | fn (f : Unit → JValue) : DefaultValue

/-- `SchemaField` from `types.ts`.  Absent optional properties are modelled by
`none` / `[]`.  `fields` nests a whole schema, `items` a field spec. -/
inductive SchemaField where
  | mk (type : FieldType) (required : Bool) (nullable : Bool)
      (rules : List ValidationRule)
      (transform : Option (JValue → JValue))
      (default? : Option DefaultValue)
      (fields : Option (List (String × SchemaField)))
      (items : Option SchemaField) : SchemaField

/-- A schema: field names mapped to field specs, in declaration order. -/
abbrev SchemaDefinition := List (String × SchemaField)

def SchemaField.type : SchemaField → FieldType
  | .mk t _ _ _ _ _ _ _ => t

def SchemaField.required : SchemaField → Bool
  | .mk _ r _ _ _ _ _ _ => r

def SchemaField.nullable : SchemaField → Bool
  | .mk _ _ n _ _ _ _ _ => n

def SchemaField.rules : SchemaField → List ValidationRule
  | .mk _ _ _ rs _ _ _ _ => rs

def SchemaField.transform : SchemaField → Option (JValue → JValue)
  | .mk _ _ _ _ tr _ _ _ => tr

def SchemaField.default? : SchemaField → Option DefaultValue
  | .mk _ _ _ _ _ df _ _ => df

def SchemaField.fields : SchemaField → Option SchemaDefinition
  | .mk _ _ _ _ _ _ fl _ => fl

def SchemaField.items : SchemaField → Option SchemaField
  | .mk _ _ _ _ _ _ _ it => it

/-- `this.schema[fieldName]` on the schema object (first matching key). -/
def lookupField : SchemaDefinition → String → Option SchemaField
  | [], _ => none
  | (k, f) :: rest, fieldName =>
    if k == fieldName then some f else lookupField rest fieldName

mutual

/-- Computable size of a field spec, used as recursion fuel: strictly larger
than the size of every schema fragment the validator can descend into. -/
def fieldSize : SchemaField → Nat
  | .mk _ _ _ _ _ _ fl it => 1 + optSchemaSize fl + optFieldSize it

/-- Size of an optional nested field spec. -/
def optFieldSize : Option SchemaField → Nat
  | none => 0
  | some f => 1 + fieldSize f

/-- Size of an optional nested schema. -/
def optSchemaSize : Option (List (String × SchemaField)) → Nat
  | none => 0
  | some l => 1 + schemaSize l

/-- Computable size of a schema. -/
def schemaSize : List (String × SchemaField) → Nat
  | [] => 0
  | (_, f) :: rest => 1 + fieldSize f + schemaSize rest

end

/-- `ValidationError` from `types.ts`. -/
structure ValidationError where
  field : String
  message : String
  value : JValue
deriving Repr

/-- `ValidationResult` from `types.ts`; `data = none` models `data: null`. -/
structure ValidationResult where
  valid : Bool
  errors : List ValidationError
  data : Option JValue
deriving Repr

/-- `errorCollectionMode`. -/
inductive ErrorCollectionMode where
  | first | all
deriving Repr, DecidableEq

/-- The three constructor options of `SmartValidator`, after the `??` defaults
have been applied. -/
structure Options where
  transformEnabled : Bool
  strictMode : Bool
  errorCollectionMode : ErrorCollectionMode
deriving Repr

/-- The option record produced by `new SmartValidator(schema)` with no options
argument: `transformEnabled = true`, `strictMode = false`, mode `all`. -/
def defaultOptions : Options := ⟨true, false, .all⟩

/-- `Field '<name>' is required`. -/
def requiredMsg (fieldName : String) : String :=
  "Field \x27" ++ fieldName ++ "\x27 is required"

/-- `Unknown field '<name>'`. -/
def unknownMsg (fieldName : String) : String :=
  "Unknown field \x27" ++ fieldName ++ "\x27"

/-- `Field '<name>' cannot be null`. -/
def cannotBeNullMsg (fieldName : String) : String :=
  "Field \x27" ++ fieldName ++ "\x27 cannot be null"

/-- `Field '<name>' must be of type <type>`. -/
def typeMsg (fieldName : String) (t : FieldType) : String :=
  "Field \x27" ++ fieldName ++ "\x27 must be of type " ++ t.name

/-- `SmartValidator.validateType`. -/
def validateType (value : JValue) (fieldSchema : SchemaField) : Bool :=
  match fieldSchema.type with
  | .string => isStr value
  | .number => isNumeric value && !isNaNv value
  | .boolean => isBool value
  | .object => typeofIsObject value && !isNull value && !isArr value
  | .array => isArr value
  | .any => true

/-- The condition of the required-field pass for one schema entry:
`field.required && (data[fieldName] === undefined ||
(data[fieldName] === null && !field.nullable))`. -/
def missingRequired (data : JValue) (fieldName : String) (field : SchemaField) : Bool :=
  field.required &&
    (isUndef (data.getKey fieldName) ||
      (isNull (data.getKey fieldName) && !field.nullable))

/-- The required-field pass (first loop of `validate`).  Returns `.inl errors`
for the "first"-mode immediate `return { valid:false, errors, data:null }`,
and `.inr errors` when the loop runs to completion. -/
def requiredPass (opts : Options) (data : JValue) :
    SchemaDefinition → List ValidationError →
    Sum (List ValidationError) (List ValidationError)
  | [], errors => .inr errors
  | (fieldName, field) :: rest, errors =>
    if missingRequired data fieldName field then
      let errors := errors ++ [⟨fieldName, requiredMsg fieldName, .undef⟩]
      if opts.errorCollectionMode == .first && decide (0 < errors.length) then
        .inl errors
      else requiredPass opts data rest errors
    else requiredPass opts data rest errors

/-- The per-field validation and output-assembly pass (second loop of
`validate`), abstracted over the field validator `vf` so the fuel-indexed
recursion below can instantiate it.  `.inl` is the "first"-mode immediate
return, `.inr (errors, result)` completion. -/
def pass2 (opts : Options) (schema : SchemaDefinition)
    (vf : String → JValue → SchemaField → List ValidationError) :
    List (String × JValue) → List ValidationError → List (String × JValue) →
    Sum (List ValidationError) (List ValidationError × List (String × JValue))
  | [], errors, result => .inr (errors, result)
  | (fieldName, value0) :: rest, errors, result =>
    if opts.strictMode && (lookupField schema fieldName).isNone then
      let errors := errors ++ [⟨fieldName, unknownMsg fieldName, value0⟩]
      if opts.errorCollectionMode == .first && decide (0 < errors.length) then
        .inl errors
      else pass2 opts schema vf rest errors result
    else
      match lookupField schema fieldName with
      | none => pass2 opts schema vf rest errors (setKey result fieldName value0)
      | some fieldSchema =>
        let fieldErrors := vf fieldName value0 fieldSchema
        if decide (0 < fieldErrors.length) then
          let errors := errors ++ fieldErrors
          if opts.errorCollectionMode == .first && decide (0 < errors.length) then
            .inl errors
          else pass2 opts schema vf rest errors result
        else
          let value :=
            match opts.transformEnabled, fieldSchema.transform with
            | true, some tr => tr value0
            | _, _ => value0
          pass2 opts schema vf rest errors (setKey result fieldName value)

/-- `this.schema[fieldName].default !== undefined`. -/
def defaultIsDefined : Option DefaultValue → Bool
  | none => false
  | some (.val v) => !isUndef v
  | some (.fn _) => true

/-- `typeof defaultValue === "function" ? defaultValue() : defaultValue`. -/
def evalDefault : Option DefaultValue → JValue
  | some (.val v) => v
  | some (.fn f) => f ()
  | none => JValue.undef

/-- The default-substitution pass (third loop of `validate`). -/
def applyDefaults : SchemaDefinition → List (String × JValue) → List (String × JValue)
  | [], result => result
  | (fieldName, field) :: rest, result =>
    if isUndef (objGetKey result fieldName) && defaultIsDefined field.default? then
      applyDefaults rest (setKey result fieldName (evalDefault field.default?))
    else applyDefaults rest result

/-- Rule-chain evaluation at the end of `validateField`: one error per failing
rule, stopping at the first failure in "first" mode (`break`). -/
def ruleErrors (opts : Options) (fieldName : String) (value : JValue) :
    List ValidationRule → List ValidationError
  | [] => []
  | rule :: rest =>
    if !rule.validate value then
      let err : ValidationError := ⟨fieldName, evalMessage rule.message value fieldName, value⟩
      if opts.errorCollectionMode == .first then [err]
      else err :: ruleErrors opts fieldName value rest
    else ruleErrors opts fieldName value rest

/-- The body of one `value.forEach` iteration of the nested-array recursion:
object items are validated by a fresh scoped validator with errors re-emitted
under `<fieldName>[<index>].<nested>`, any other item by a recursive
`validateField` call on the item spec under the name `<fieldName>[<index>]`. -/
def arrayItemError (vtop : SchemaDefinition → JValue → ValidationResult)
    (vf : String → JValue → SchemaField → List ValidationError)
    (fieldName : String) (items : SchemaField) (index : Nat) (item : JValue) :
    List ValidationError :=
  match items.type == FieldType.object, items.fields with
  | true, some itemFields =>
    let itemResult := vtop itemFields item
    if !itemResult.valid then
      itemResult.errors.map (fun e =>
        ⟨fieldName ++ "[" ++ toString index ++ "]." ++ e.field, e.message, e.value⟩)
    else []
  | _, _ => vf (fieldName ++ "[" ++ toString index ++ "]") item items

/-- The nested-array recursion of `validateField` (the `value.forEach` loop),
abstracted over the nested validators. -/
def arrayItemsErrors (fieldName : String) (items : SchemaField)
    (vtop : SchemaDefinition → JValue → ValidationResult)
    (vf : String → JValue → SchemaField → List ValidationError) :
    Nat → List JValue → List ValidationError
  | _, [] => []
  | index, item :: rest =>
    arrayItemError vtop vf fieldName items index item ++
      arrayItemsErrors fieldName items vtop vf (index + 1) rest

/-- Prefixing a nested validation error with the enclosing field path
(`field: fieldName + "." + error.field`, message and value verbatim). -/
def prefixErr (prefixStr : String) (e : ValidationError) : ValidationError :=
  ⟨prefixStr ++ "." ++ e.field, e.message, e.value⟩

/-- The nested-object recursion block of `validateField`: delegate to a fresh
validator over `fieldSchema.fields` and re-emit its errors path-prefixed. -/
def nestedObjectErrors (vtop : SchemaDefinition → JValue → ValidationResult)
    (fieldName : String) (value : JValue) (fieldSchema : SchemaField) :
    List ValidationError :=
  match fieldSchema.fields with
  | some nestedSchema =>
    if fieldSchema.type == FieldType.object && typeofIsObject value then
      let nestedResult := vtop nestedSchema value
      if !nestedResult.valid then
        nestedResult.errors.map (prefixErr fieldName)
      else []
    else []
  | none => []

/-- The nested-array recursion block of `validateField` (`value.forEach`). -/
def nestedArrayErrors (vtop : SchemaDefinition → JValue → ValidationResult)
    (vf : String → JValue → SchemaField → List ValidationError)
    (fieldName : String) (value : JValue) (fieldSchema : SchemaField) :
    List ValidationError :=
  match fieldSchema.items, value with
  | some itemsSpec, .arr elems =>
    if fieldSchema.type == FieldType.array then
      arrayItemsErrors fieldName itemsSpec vtop vf 0 elems
    else []
  | _, _ => []

/-- Body of `SmartValidator.validateField`, abstracted over the recursive
calls: `vtop` is `new SmartValidator(subSchema, sameOptions).validate`, `vf`
the recursive `validateField`.  Error accumulation order: nested-object
recursion, then nested-array recursion, then rule-chain evaluation. -/
def validateFieldBody (opts : Options)
    (vtop : SchemaDefinition → JValue → ValidationResult)
    (vf : String → JValue → SchemaField → List ValidationError)
    (fieldName : String) (value : JValue) (fieldSchema : SchemaField) :
    List ValidationError :=
  if isNull value then
    if fieldSchema.nullable then []
    else [⟨fieldName, cannotBeNullMsg fieldName, .null⟩]
  else if isUndef value && !fieldSchema.required then []
  else if !validateType value fieldSchema then
    [⟨fieldName, typeMsg fieldName fieldSchema.type, value⟩]
  else
    nestedObjectErrors vtop fieldName value fieldSchema ++
    nestedArrayErrors vtop vf fieldName value fieldSchema ++
    ruleErrors opts fieldName value fieldSchema.rules

/-- Body of `SmartValidator.validate`, abstracted over the field validator. -/
def validateBody (opts : Options)
    (vf : String → JValue → SchemaField → List ValidationError)
    (schema : SchemaDefinition) (data : JValue) : ValidationResult :=
  match requiredPass opts data schema [] with
  | .inl errors => ⟨false, errors, none⟩
  | .inr errors =>
    match pass2 opts schema vf data.entriesOf errors [] with
    | .inl errors => ⟨false, errors, none⟩
    | .inr (errors, result) =>
      let result := applyDefaults schema result
      ⟨decide (errors.length = 0), errors,
        if errors.length = 0 then some (.obj result) else none⟩

/- Fuel-indexed mutual recursion for `validate` / `validateField`.  The fuel
only decreases at nested-schema delegation, which in the source always targets
a strictly smaller schema fragment, so any fuel exceeding the schema size
computes the untruncated TypeScript semantics (see the stability theorems
below).  The fuel-exhausted branches are unreachable from the public
wrappers. -/
mutual

/-- `SmartValidator.validate` at bounded schema-nesting depth. -/
def validateF : Nat → Options → SchemaDefinition → JValue → ValidationResult
  | 0, _, _, _ => ⟨false, [⟨"", "fuel exhausted", .undef⟩], none⟩
  | n + 1, opts, schema, data =>
    validateBody opts (fun fn v spec => validateFieldF n opts fn v spec) schema data

/-- `SmartValidator.validateField` at bounded schema-nesting depth. -/
def validateFieldF : Nat → Options → String → JValue → SchemaField → List ValidationError
  | 0, _, _, _, _ => [⟨"", "fuel exhausted", .undef⟩]
  | n + 1, opts, fieldName, value, fieldSchema =>
    validateFieldBody opts
      (fun subSchema d => validateF n opts subSchema d)
      (fun fn v spec => validateFieldF n opts fn v spec)
      fieldName value fieldSchema

end

/-- `SmartValidator.validate` for a validator constructed with `schema` and
options `opts`. -/
def validate (opts : Options) (schema : SchemaDefinition) (data : JValue) :
    ValidationResult :=
  validateF (schemaSize schema + 1) opts schema data

/-- `SmartValidator.validateField` for a validator with options `opts`. -/
def validateField (opts : Options) (fieldName : String) (value : JValue)
    (fieldSchema : SchemaField) : List ValidationError :=
  validateFieldF (fieldSize fieldSchema + 1) opts fieldName value fieldSchema

/-- The required-field errors of pass 1, in schema order (pure collector). -/
def reqList (data : JValue) : SchemaDefinition → List ValidationError
  | [] => []
  | (fieldName, field) :: rest =>
    if missingRequired data fieldName field then
      ⟨fieldName, requiredMsg fieldName, .undef⟩ :: reqList data rest
    else reqList data rest

/-- The first missing required field of a schema, in schema order. -/
def firstMissingRequired (data : JValue) : SchemaDefinition → Option String
  | [] => none
  | (fieldName, field) :: rest =>
    if missingRequired data fieldName field then some fieldName
    else firstMissingRequired data rest

/-- The error list carried by either outcome of `pass2`. -/
def p2errs :
    Sum (List ValidationError) (List ValidationError × List (String × JValue)) →
    List ValidationError
  | .inl l => l
  | .inr (l, _) => l

/-- The outcome of `pass2` with the assembled result object erased: which
kind of return fired, and with which error list. -/
def p2shape :
    Sum (List ValidationError) (List ValidationError × List (String × JValue)) →
    Sum (List ValidationError) (List ValidationError)
  | .inl l => .inl l
  | .inr (l, _) => .inr l

/-- The value stored in the output object for a successfully validated field:
the transform applied when enabled and declared, the raw value otherwise. -/
def storeValue (opts : Options) (fieldSchema : SchemaField) (value0 : JValue) : JValue :=
  match opts.transformEnabled, fieldSchema.transform with
  | true, some tr => tr value0
  | _, _ => value0

/-- The errors produced by pass 2 in "all" mode, in data-key order
(pure collector). -/
def pass2ErrsAll (opts : Options) (schema : SchemaDefinition)
    (vf : String → JValue → SchemaField → List ValidationError) :
    List (String × JValue) → List ValidationError
  | [] => []
  | (fieldName, value0) :: rest =>
    (if opts.strictMode && (lookupField schema fieldName).isNone then
      [⟨fieldName, unknownMsg fieldName, value0⟩]
    else
      match lookupField schema fieldName with
      | none => []
      | some fieldSchema => vf fieldName value0 fieldSchema) ++
    pass2ErrsAll opts schema vf rest

/-- The output object assembled by pass 2 when no early return fires
(pure collector). -/
def pass2ResultAll (opts : Options) (schema : SchemaDefinition)
    (vf : String → JValue → SchemaField → List ValidationError) :
    List (String × JValue) → List (String × JValue) → List (String × JValue)
  | [], result => result
  | (fieldName, value0) :: rest, result =>
    if opts.strictMode && (lookupField schema fieldName).isNone then
      pass2ResultAll opts schema vf rest result
    else
      match lookupField schema fieldName with
      | none => pass2ResultAll opts schema vf rest (setKey result fieldName value0)
      | some fieldSchema =>
        if decide (0 < (vf fieldName value0 fieldSchema).length) then
          pass2ResultAll opts schema vf rest result
        else
          pass2ResultAll opts schema vf rest
            (setKey result fieldName (storeValue opts fieldSchema value0))

/-- The error list carried by either outcome of `requiredPass`. -/
def reqOut : Sum (List ValidationError) (List ValidationError) → List ValidationError
  | .inl l => l
  | .inr l => l

/-- The entries stored into the output object by pass 2, in data-key order:
unknown keys are dropped in strict mode and passed through otherwise, and a
schema field is stored (transformed if applicable) exactly when its field
validation yields no errors. -/
def pass2Stores (o : Options) (schema : SchemaDefinition)
    (vf : String → JValue → SchemaField → List ValidationError) :
    List (String × JValue) → List (String × JValue)
  | [] => []
  | (k, v) :: rest =>
    if o.strictMode && (lookupField schema k).isNone then
      pass2Stores o schema vf rest
    else
      match lookupField schema k with
      | none => (k, v) :: pass2Stores o schema vf rest
      | some spec =>
        if decide (0 < (vf k v spec).length) then pass2Stores o schema vf rest
        else (k, storeValue o spec v) :: pass2Stores o schema vf rest

mutual

/-- A field spec declaring no transform and no default, recursively (used to
state the idempotence property). -/
def plainField : SchemaField → Bool
  | .mk _ _ _ _ tr df fl it =>
    tr.isNone && df.isNone && plainOptSchema fl && plainOptField it

/-- `plainField` lifted to an optional nested field spec. -/
def plainOptField : Option SchemaField → Bool
  | none => true
  | some f => plainField f

/-- `plainSchema` lifted to an optional nested schema. -/
def plainOptSchema : Option (List (String × SchemaField)) → Bool
  | none => true
  | some l => plainSchema l

/-- A schema declaring no transform and no default anywhere. -/
def plainSchema : List (String × SchemaField) → Bool
  | [] => true
  | (_, f) :: rest => plainField f && plainSchema rest

end

/-- The keys of an object-shaped value, in property order. -/
def objKeys (v : JValue) : List String := v.entriesOf.map Prod.fst

/-- The field names of a schema, in declaration order. -/
def schemaKeys (schema : SchemaDefinition) : List String := schema.map Prod.fst

namespace rules

/-- `rules.string.min` from `rules.ts`. -/
def string.min (length : Nat) : ValidationRule where
  validate := fun value =>
    isStr value &&
      decide (length ≤ (match value with | .str s => s.length | _ => 0))
  message := .fn (fun _ field =>
    field ++ " must be at least " ++ toString length ++ " characters long")

/-- `rules.string.max` from `rules.ts`. -/
def string.max (length : Nat) : ValidationRule where
  validate := fun value =>
    isStr value &&
      decide ((match value with | .str s => s.length | _ => 0) ≤ length)
  message := .fn (fun _ field =>
    field ++ " must be at most " ++ toString length ++ " characters long")

/-- `rules.number.min` from `rules.ts`. -/
def number.min (limit : Int) : ValidationRule where
  validate := fun value =>
    isNumeric value && decide (limit ≤ (match value with | .num n => n | _ => 0))
  message := .fn (fun _ field => field ++ " must be at least " ++ toString limit)

/-- `rules.array.unique` from `rules.ts`, without the optional key function:
all `JSON.stringify` images pairwise distinct (`new Set(jsonItems).size ===
jsonItems.length`). -/
def array.unique : ValidationRule where
  validate := fun value =>
    match value with
    | .arr elems =>
      let jsonItems := elems.map jsonStringify
      jsonItems.dedup.length == jsonItems.length
    | _ => false
  message := .fn (fun _ field => field ++ " must contain unique items")

/-- `rules.custom` from `rules.ts`. -/
def custom (validationFn : JValue → Bool) (message : RuleMessage) : ValidationRule where
  validate := validationFn
  message := message

end rules

section SanityChecks

/-- Scenario E schema: two required fields. -/
def schemaE : SchemaDefinition :=
  [("a", .mk .string true false [] none none none none),
   ("b", .mk .number true false [] none none none none)]

example :
    validate ⟨true, false, .first⟩ schemaE (.obj []) =
      ⟨false, [⟨"a", requiredMsg "a", .undef⟩], none⟩ := rfl

/-- Scenario B schema: nested required `user.profile.firstName`. -/
def schemaB : SchemaDefinition :=
  [("user", .mk .object true false [] none none
    (some [("profile", .mk .object true false [] none none
      (some [("firstName", .mk .string true false [] none none none none)])
      none)])
    none)]

example :
    validate defaultOptions schemaB (.obj [("user", .obj [("profile", .obj [])])]) =
      ⟨false, [⟨"user.profile.firstName", requiredMsg "firstName", .undef⟩], none⟩ := rfl

/-- Scenario C schema: array of strings with `min(2)` items and `unique()`. -/
def schemaC : SchemaDefinition :=
  [("tags", .mk .array false false [rules.array.unique] none none none
    (some (.mk .string false false [rules.string.min 2] none none none none)))]

example :
    validate defaultOptions schemaC
        (.obj [("tags", .arr [.str "a", .str "bb", .str "bb"])]) =
      ⟨false,
        [⟨"tags[0]", "tags[0] must be at least 2 characters long", .str "a"⟩,
         ⟨"tags", "tags must contain unique items",
           .arr [.str "a", .str "bb", .str "bb"]⟩], none⟩ := rfl

/-- Scenario D schema: one known string field, strict mode. -/
def schemaD : SchemaDefinition :=
  [("name", .mk .string false false [] none none none none)]

example :
    validate ⟨true, true, .all⟩ schemaD (.obj [("name", .str "x"), ("extra", .num 1)]) =
      ⟨false, [⟨"extra", unknownMsg "extra", .num 1⟩], none⟩ := rfl

/-- An object field with nested required `x` and an always-failing own rule. -/
def schemaTwoErr : SchemaDefinition :=
  [("f", .mk .object false false [rules.custom (fun _ => false) (.lit "f custom fail")]
    none none
    (some [("x", .mk .string true false [] none none none none)]) none)]

example :
    ((validate ⟨true, false, .first⟩ schemaTwoErr (.obj [("f", .obj [])])).errors).length
      = 2 := rfl

/-- A nullable string field. -/
def schemaNullable : SchemaDefinition :=
  [("f", .mk .string false true [] none none none none)]

example :
    validate defaultOptions schemaNullable (.obj [("f", .null)]) =
      ⟨true, [], some (.obj [("f", .null)])⟩ := rfl

/-- A field whose transform produces `undefined` and which declares a default. -/
def schemaTrUndef : SchemaDefinition :=
  [("a", .mk .any false false [] (some (fun _ => .undef)) (some (.val (.num 7)))
    none none)]

example :
    validate defaultOptions schemaTrUndef (.obj [("a", .num 1)]) =
      ⟨true, [], some (.obj [("a", .num 7)])⟩ := rfl

/-- A required, non-nullable string field. -/
def schemaReqNonNull : SchemaDefinition :=
  [("f", .mk .string true false [] none none none none)]

example :
    validate defaultOptions schemaReqNonNull (.obj [("f", .null)]) =
      ⟨false, [⟨"f", requiredMsg "f", .undef⟩, ⟨"f", cannotBeNullMsg "f", .null⟩],
        none⟩ := rfl

/-- A single field with a literal default. -/
def schemaWithDefault : SchemaDefinition :=
  [("x", .mk .any false false [] none (some (.val (.num 5))) none none)]

/-- The field spec of `schemaNullable`. -/
def nullableStringSpec : SchemaField := .mk .string false true [] none none none none

end SanityChecks

section PassLemmas

theorem requiredPass_all {opts : Options} (h : opts.errorCollectionMode = .all)
    (data : JValue) (schema : SchemaDefinition) :
    ∀ errs, requiredPass opts data schema errs = .inr (errs ++ reqList data schema) := by
  induction schema with
  | nil => intro errs; simp [requiredPass, reqList]
  | cons entry rest ih =>
    obtain ⟨fieldName, field⟩ := entry
    intro errs
    by_cases hm : missingRequired data fieldName field
    · simp [requiredPass, reqList, hm, h, ih]
    · simp [requiredPass, reqList, hm, ih]

theorem requiredPass_none (opts : Options) (data : JValue) :
    ∀ (schema : SchemaDefinition), firstMissingRequired data schema = none →
    ∀ errs, requiredPass opts data schema errs = .inr errs := by
  intro schema
  induction schema with
  | nil => intro _ errs; simp [requiredPass]
  | cons entry rest ih =>
    obtain ⟨fieldName, field⟩ := entry
    intro hnone errs
    by_cases hm : missingRequired data fieldName field
    · simp [firstMissingRequired, hm] at hnone
    · simp only [firstMissingRequired, hm, if_false, Bool.false_eq_true] at hnone
      simp [requiredPass, hm, ih hnone]

theorem requiredPass_first_some {opts : Options} (h : opts.errorCollectionMode = .first)
    (data : JValue) :
    ∀ (schema : SchemaDefinition) (name : String),
    firstMissingRequired data schema = some name →
    ∀ errs, requiredPass opts data schema errs =
      .inl (errs ++ [⟨name, requiredMsg name, .undef⟩]) := by
  intro schema
  induction schema with
  | nil => intro name hsome; simp [firstMissingRequired] at hsome
  | cons entry rest ih =>
    obtain ⟨fieldName, field⟩ := entry
    intro name hsome errs
    by_cases hm : missingRequired data fieldName field
    · simp only [firstMissingRequired, hm, if_true, Option.some.injEq] at hsome
      subst hsome
      simp [requiredPass, hm, h]
    · simp only [firstMissingRequired, hm, if_false, Bool.false_eq_true] at hsome
      simp [requiredPass, hm, ih name hsome]

theorem requiredPass_inl_ne (opts : Options) (data : JValue) :
    ∀ (schema : SchemaDefinition) (errs l : List ValidationError),
    requiredPass opts data schema errs = .inl l → l ≠ [] := by
  intro schema
  induction schema with
  | nil => intro errs l h; simp [requiredPass] at h
  | cons entry rest ih =>
    obtain ⟨fieldName, field⟩ := entry
    intro errs l h
    by_cases hm : missingRequired data fieldName field
    · simp only [requiredPass, hm, if_true] at h
      by_cases hf : (opts.errorCollectionMode == ErrorCollectionMode.first &&
          decide (0 < (errs ++
            [ValidationError.mk fieldName (requiredMsg fieldName) JValue.undef]).length)) = true
      · simp only [hf, if_true] at h
        cases h
        simp
      · simp only [hf, if_false, Bool.false_eq_true] at h
        exact ih _ _ h
    · simp only [requiredPass, hm, if_false, Bool.false_eq_true] at h
      exact ih _ _ h

theorem pass2_all {opts : Options} (h : opts.errorCollectionMode = .all)
    (schema : SchemaDefinition)
    (vf : String → JValue → SchemaField → List ValidationError) :
    ∀ entries errs result, pass2 opts schema vf entries errs result =
      .inr (errs ++ pass2ErrsAll opts schema vf entries,
            pass2ResultAll opts schema vf entries result) := by
  intro entries
  induction entries with
  | nil => intro errs result; simp [pass2, pass2ErrsAll, pass2ResultAll]
  | cons entry rest ih =>
    obtain ⟨fieldName, value0⟩ := entry
    intro errs result
    cases hl : lookupField schema fieldName with
    | none =>
      by_cases hst : opts.strictMode = true
      · simp [pass2, pass2ErrsAll, pass2ResultAll, hl, hst, h, ih]
      · simp only [Bool.not_eq_true] at hst
        simp [pass2, pass2ErrsAll, pass2ResultAll, hl, hst, ih]
    | some fieldSchema =>
      by_cases he : decide (0 < (vf fieldName value0 fieldSchema).length) = true
      · simp [pass2, pass2ErrsAll, pass2ResultAll, hl, he, h, ih]
      · have hvf : vf fieldName value0 fieldSchema = [] := by
          simpa [List.length_eq_zero] using he
        simp [pass2, pass2ErrsAll, pass2ResultAll, hl, hvf, ih, storeValue]

theorem pass2_inl_ne (opts : Options) (schema : SchemaDefinition)
    (vf : String → JValue → SchemaField → List ValidationError) :
    ∀ (entries : List (String × JValue)) (errs : List ValidationError)
      (result : List (String × JValue)) (l : List ValidationError),
    pass2 opts schema vf entries errs result = .inl l → l ≠ [] := by
  intro entries
  induction entries with
  | nil => intro errs result l h; simp [pass2] at h
  | cons entry rest ih =>
    obtain ⟨fieldName, value0⟩ := entry
    intro errs result l h
    rw [show pass2 opts schema vf ((fieldName, value0) :: rest) errs result =
        (if opts.strictMode && (lookupField schema fieldName).isNone then
          let errors := errs ++ [⟨fieldName, unknownMsg fieldName, value0⟩]
          if opts.errorCollectionMode == .first && decide (0 < errors.length) then
            .inl errors
          else pass2 opts schema vf rest errors result
        else
          match lookupField schema fieldName with
          | none => pass2 opts schema vf rest errs (setKey result fieldName value0)
          | some fieldSchema =>
            let fieldErrors := vf fieldName value0 fieldSchema
            if decide (0 < fieldErrors.length) then
              let errors := errs ++ fieldErrors
              if opts.errorCollectionMode == .first && decide (0 < errors.length) then
                .inl errors
              else pass2 opts schema vf rest errors result
            else
              let value :=
                match opts.transformEnabled, fieldSchema.transform with
                | true, some tr => tr value0
                | _, _ => value0
              pass2 opts schema vf rest errs (setKey result fieldName value)) from rfl]
      at h
    by_cases hs : (opts.strictMode && (lookupField schema fieldName).isNone) = true
    · simp only [hs, if_true] at h
      by_cases hf : (opts.errorCollectionMode == ErrorCollectionMode.first &&
          decide (0 < (errs ++
            [ValidationError.mk fieldName (unknownMsg fieldName) value0]).length)) = true
      · simp only [hf, if_true] at h
        cases h
        simp
      · simp only [hf, if_false, Bool.false_eq_true] at h
        exact ih _ _ _ h
    · simp only [hs, if_false, Bool.false_eq_true] at h
      cases hl : lookupField schema fieldName with
      | none =>
        simp only [hl] at h
        exact ih _ _ _ h
      | some fieldSchema =>
        simp only [hl] at h
        by_cases he : decide (0 < (vf fieldName value0 fieldSchema).length) = true
        · simp only [he, if_true] at h
          by_cases hf : (opts.errorCollectionMode == ErrorCollectionMode.first &&
              decide (0 < (errs ++ vf fieldName value0 fieldSchema).length)) = true
          · simp only [hf, if_true] at h
            cases h
            intro hnil
            rw [List.append_eq_nil] at hnil
            simp [hnil.2] at he
          · simp only [hf, if_false, Bool.false_eq_true] at h
            exact ih _ _ _ h
        · simp only [he, if_false, Bool.false_eq_true] at h
          exact ih _ _ _ h

theorem validateF_valid_iff (n : Nat) (opts : Options) (schema : SchemaDefinition)
    (data : JValue) :
    ((validateF n opts schema data).valid = true ↔
      (validateF n opts schema data).errors = []) ∧
    ((validateF n opts schema data).valid = true ↔
      (validateF n opts schema data).data ≠ none) := by
  cases n with
  | zero => simp [validateF]
  | succ n =>
    simp only [validateF, validateBody]
    rcases hr : requiredPass opts data schema [] with l | errors
    · have hne := requiredPass_inl_ne opts data schema [] l hr
      simp [hr, hne]
    · rcases hp : pass2 opts schema
          (fun fn v spec => validateFieldF n opts fn v spec)
          data.entriesOf errors [] with l2 | p
      · have hne := pass2_inl_ne opts schema _ data.entriesOf errors [] l2 hp
        simp [hr, hp, hne]
      · obtain ⟨errors2, result⟩ := p
        by_cases he : errors2 = []
        · simp [hr, hp, he]
        · have hlen : errors2.length ≠ 0 := by
            simpa [List.length_eq_zero] using he
          simp [hr, hp, he, hlen]

end PassLemmas

section FuelStability

theorem lookupField_size :
    ∀ {schema : SchemaDefinition} {fieldName : String} {f : SchemaField},
    lookupField schema fieldName = some f → fieldSize f + 1 ≤ schemaSize schema := by
  intro schema
  induction schema with
  | nil => intro _ _ h; simp [lookupField] at h
  | cons entry rest ih =>
    obtain ⟨k, fld⟩ := entry
    intro fieldName f h
    by_cases hk : (k == fieldName) = true
    · simp only [lookupField, hk, if_true, Option.some.injEq] at h
      subst h
      simp [schemaSize]
      omega
    · simp only [lookupField, hk, if_false, Bool.false_eq_true] at h
      have := ih h
      simp only [schemaSize]
      omega

theorem fields_size {f : SchemaField} {l : SchemaDefinition} (h : f.fields = some l) :
    schemaSize l + 2 ≤ fieldSize f := by
  cases f with
  | mk t r nl rs tr df fl it =>
    simp only [SchemaField.fields] at h
    subst h
    simp only [fieldSize, optSchemaSize]
    omega

theorem items_size {f i : SchemaField} (h : f.items = some i) :
    fieldSize i + 2 ≤ fieldSize f := by
  cases f with
  | mk t r nl rs tr df fl it =>
    simp only [SchemaField.items] at h
    subst h
    simp only [fieldSize, optFieldSize]
    omega

theorem requiredPass_opts_congr {o o' : Options}
    (hmode : o.errorCollectionMode = o'.errorCollectionMode) (data : JValue) :
    ∀ (schema : SchemaDefinition) errs,
    requiredPass o data schema errs = requiredPass o' data schema errs := by
  intro schema
  induction schema with
  | nil => intro errs; simp [requiredPass]
  | cons entry rest ih =>
    obtain ⟨fieldName, field⟩ := entry
    intro errs
    by_cases hm : missingRequired data fieldName field
    · simp [requiredPass, hm, hmode, ih]
    · simp [requiredPass, hm, ih]

theorem ruleErrors_opts_congr {o o' : Options}
    (hmode : o.errorCollectionMode = o'.errorCollectionMode)
    (fieldName : String) (value : JValue) :
    ∀ rs, ruleErrors o fieldName value rs = ruleErrors o' fieldName value rs := by
  intro rs
  induction rs with
  | nil => simp [ruleErrors]
  | cons rule rest ih =>
    by_cases hr : (!rule.validate value) = true
    · simp [ruleErrors, hr, hmode, ih]
    · simp [ruleErrors, hr, ih]

theorem pass2_congr {opts : Options} {schema : SchemaDefinition}
    {vf vf' : String → JValue → SchemaField → List ValidationError}
    (hvf : ∀ k v spec, lookupField schema k = some spec → vf k v spec = vf' k v spec) :
    ∀ entries errs result,
    pass2 opts schema vf entries errs result = pass2 opts schema vf' entries errs result := by
  intro entries
  induction entries with
  | nil => intro errs result; simp [pass2]
  | cons entry rest ih =>
    obtain ⟨k, v⟩ := entry
    intro errs result
    cases hl : lookupField schema k with
    | none => simp [pass2, hl, ih]
    | some spec =>
      have hv := hvf k v spec hl
      simp [pass2, hl, hv, ih]

theorem validateBody_congr {opts : Options} {schema : SchemaDefinition}
    {vf vf' : String → JValue → SchemaField → List ValidationError}
    (hvf : ∀ k v spec, lookupField schema k = some spec → vf k v spec = vf' k v spec)
    (data : JValue) :
    validateBody opts vf schema data = validateBody opts vf' schema data := by
  unfold validateBody
  cases hr : requiredPass opts data schema [] with
  | inl l => simp only [hr]
  | inr errors =>
    simp only [hr]
    rw [pass2_congr hvf]

theorem arrayItemError_of_object {items : SchemaField} {itemFields : SchemaDefinition}
    (hty : (items.type == FieldType.object) = true) (hfl : items.fields = some itemFields)
    (vtop : SchemaDefinition → JValue → ValidationResult)
    (vf : String → JValue → SchemaField → List ValidationError)
    (fieldName : String) (index : Nat) (item : JValue) :
    arrayItemError vtop vf fieldName items index item =
      (if !(vtop itemFields item).valid then
        ((vtop itemFields item).errors).map (fun e =>
          ⟨fieldName ++ "[" ++ toString index ++ "]." ++ e.field, e.message, e.value⟩)
      else []) := by
  unfold arrayItemError
  rw [hty, hfl]

theorem arrayItemError_not_object {items : SchemaField}
    (h : (items.type == FieldType.object) = false ∨ items.fields = none)
    (vtop : SchemaDefinition → JValue → ValidationResult)
    (vf : String → JValue → SchemaField → List ValidationError)
    (fieldName : String) (index : Nat) (item : JValue) :
    arrayItemError vtop vf fieldName items index item =
      vf (fieldName ++ "[" ++ toString index ++ "]") item items := by
  unfold arrayItemError
  rcases h with h | h
  · rw [h]
  · rw [h]
    all_goals cases (items.type == FieldType.object) <;> rfl

theorem arrayItemsErrors_congr {fieldName : String} {items : SchemaField}
    {vtop vtop' : SchemaDefinition → JValue → ValidationResult}
    {vf vf' : String → JValue → SchemaField → List ValidationError}
    (hvtop : ∀ l d, items.fields = some l →
      (vtop l d).valid = (vtop' l d).valid ∧ (vtop l d).errors = (vtop' l d).errors)
    (hvf : ∀ fn it, vf fn it items = vf' fn it items) :
    ∀ index elems,
    arrayItemsErrors fieldName items vtop vf index elems =
      arrayItemsErrors fieldName items vtop' vf' index elems := by
  intro index elems
  induction elems generalizing index with
  | nil => simp [arrayItemsErrors]
  | cons item rest ih =>
    simp only [arrayItemsErrors]
    congr 1
    · cases hty : (items.type == FieldType.object) with
      | false =>
        rw [arrayItemError_not_object (Or.inl hty),
          arrayItemError_not_object (Or.inl hty), hvf]
      | true =>
        cases hfl : items.fields with
        | none =>
          rw [arrayItemError_not_object (Or.inr hfl),
            arrayItemError_not_object (Or.inr hfl), hvf]
        | some itemFields =>
          have hh := hvtop itemFields item hfl
          rw [arrayItemError_of_object hty hfl, arrayItemError_of_object hty hfl,
            hh.1, hh.2]
    · exact ih (index + 1)

theorem nestedObjectErrors_of_none {fieldSchema : SchemaField}
    (h : fieldSchema.fields = none)
    (vtop : SchemaDefinition → JValue → ValidationResult)
    (fieldName : String) (value : JValue) :
    nestedObjectErrors vtop fieldName value fieldSchema = [] := by
  unfold nestedObjectErrors
  rw [h]

theorem nestedObjectErrors_of_some {fieldSchema : SchemaField}
    {nestedSchema : SchemaDefinition} (h : fieldSchema.fields = some nestedSchema)
    (vtop : SchemaDefinition → JValue → ValidationResult)
    (fieldName : String) (value : JValue) :
    nestedObjectErrors vtop fieldName value fieldSchema =
      (if fieldSchema.type == FieldType.object && typeofIsObject value then
        if !(vtop nestedSchema value).valid then
          ((vtop nestedSchema value).errors).map (prefixErr fieldName)
        else []
      else []) := by
  unfold nestedObjectErrors
  rw [h]

theorem nestedArrayErrors_of_none {fieldSchema : SchemaField}
    (h : fieldSchema.items = none)
    (vtop : SchemaDefinition → JValue → ValidationResult)
    (vf : String → JValue → SchemaField → List ValidationError)
    (fieldName : String) (value : JValue) :
    nestedArrayErrors vtop vf fieldName value fieldSchema = [] := by
  unfold nestedArrayErrors
  rw [h]

theorem nestedArrayErrors_of_not_arr {fieldSchema : SchemaField}
    (vtop : SchemaDefinition → JValue → ValidationResult)
    (vf : String → JValue → SchemaField → List ValidationError)
    (fieldName : String) {value : JValue} (h : isArr value = false) :
    nestedArrayErrors vtop vf fieldName value fieldSchema = [] := by
  unfold nestedArrayErrors
  cases hit : fieldSchema.items <;> cases value <;> first
    | rfl
    | simp [isArr] at h

theorem nestedArrayErrors_of_some_arr {fieldSchema itemsSpec : SchemaField}
    (h : fieldSchema.items = some itemsSpec)
    (vtop : SchemaDefinition → JValue → ValidationResult)
    (vf : String → JValue → SchemaField → List ValidationError)
    (fieldName : String) (elems : List JValue) :
    nestedArrayErrors vtop vf fieldName (.arr elems) fieldSchema =
      (if fieldSchema.type == FieldType.array then
        arrayItemsErrors fieldName itemsSpec vtop vf 0 elems
      else []) := by
  unfold nestedArrayErrors
  rw [h]

theorem validateFieldBody_congr {o o' : Options}
    (hmode : o.errorCollectionMode = o'.errorCollectionMode)
    {vtop vtop' : SchemaDefinition → JValue → ValidationResult}
    {vf vf' : String → JValue → SchemaField → List ValidationError}
    {fieldName : String} {value : JValue} {fieldSchema : SchemaField}
    (hvtop : ∀ l d, schemaSize l + 2 ≤ fieldSize fieldSchema →
      (vtop l d).valid = (vtop' l d).valid ∧ (vtop l d).errors = (vtop' l d).errors)
    (hvf : ∀ fn it sp, fieldSize sp + 2 ≤ fieldSize fieldSchema →
      vf fn it sp = vf' fn it sp) :
    validateFieldBody o vtop vf fieldName value fieldSchema =
      validateFieldBody o' vtop' vf' fieldName value fieldSchema := by
  unfold validateFieldBody
  by_cases h1 : isNull value = true
  · simp [h1]
  · simp only [h1, Bool.false_eq_true, if_false]
    by_cases h2 : (isUndef value && !fieldSchema.required) = true
    · simp [h2]
    · simp only [h2, Bool.false_eq_true, if_false]
      by_cases h3 : (!validateType value fieldSchema) = true
      · simp [h3]
      · simp only [h3, Bool.false_eq_true, if_false]
        have hobj : nestedObjectErrors vtop fieldName value fieldSchema =
            nestedObjectErrors vtop' fieldName value fieldSchema := by
          cases hfl : fieldSchema.fields with
          | none =>
            rw [nestedObjectErrors_of_none hfl, nestedObjectErrors_of_none hfl]
          | some nestedSchema =>
            rw [nestedObjectErrors_of_some hfl, nestedObjectErrors_of_some hfl]
            have hh := hvtop nestedSchema value (fields_size hfl)
            rw [hh.1, hh.2]
        have harr : nestedArrayErrors vtop vf fieldName value fieldSchema =
            nestedArrayErrors vtop' vf' fieldName value fieldSchema := by
          cases hit : fieldSchema.items with
          | none =>
            rw [nestedArrayErrors_of_none hit, nestedArrayErrors_of_none hit]
          | some itemsSpec =>
            have hsz := items_size hit
            cases value
            case arr elems =>
              rw [nestedArrayErrors_of_some_arr hit, nestedArrayErrors_of_some_arr hit]
              by_cases hty : (fieldSchema.type == FieldType.array) = true
              · simp only [hty, if_true]
                refine arrayItemsErrors_congr ?_ ?_ 0 elems
                · intro l d hl
                  have := fields_size hl
                  exact hvtop l d (by omega)
                · intro fn it
                  exact hvf fn it itemsSpec (by omega)
              · simp [hty]
            all_goals
              exact Eq.trans (nestedArrayErrors_of_not_arr _ _ _ (by rfl))
                (nestedArrayErrors_of_not_arr _ _ _ (by rfl)).symm
        rw [hobj, harr, ruleErrors_opts_congr hmode]

theorem validateF_stable : ∀ m,
    (∀ n opts schema data, schemaSize schema < m → schemaSize schema < n →
      validateF m opts schema data = validateF n opts schema data) ∧
    (∀ n opts fieldName value spec, fieldSize spec < m → fieldSize spec < n →
      validateFieldF m opts fieldName value spec =
        validateFieldF n opts fieldName value spec) := by
  intro m
  induction m using Nat.strong_induction_on with
  | _ m ih =>
    constructor
    · intro n opts schema data hm hn
      cases m with
      | zero => omega
      | succ m' =>
        cases n with
        | zero => omega
        | succ n' =>
          show validateBody opts (fun fn v spec => validateFieldF m' opts fn v spec)
              schema data =
            validateBody opts (fun fn v spec => validateFieldF n' opts fn v spec)
              schema data
          refine validateBody_congr ?_ data
          intro k v spec hl
          have hsz := lookupField_size hl
          exact (ih m' (by omega)).2 n' opts k v spec (by omega) (by omega)
    · intro n opts fieldName value spec hm hn
      cases m with
      | zero => omega
      | succ m' =>
        cases n with
        | zero => omega
        | succ n' =>
          show validateFieldBody opts (fun s d => validateF m' opts s d)
              (fun fn v sp => validateFieldF m' opts fn v sp) fieldName value spec =
            validateFieldBody opts (fun s d => validateF n' opts s d)
              (fun fn v sp => validateFieldF n' opts fn v sp) fieldName value spec
          refine validateFieldBody_congr rfl ?_ ?_
          · intro l d hsz
            have heq := (ih m' (by omega)).1 n' opts l d (by omega) (by omega)
            rw [heq]
            exact ⟨rfl, rfl⟩
          · intro fn it sp hsz
            exact (ih m' (by omega)).2 n' opts fn it sp (by omega) (by omega)

theorem validate_eq_validateF {m : Nat} (opts : Options) (schema : SchemaDefinition)
    (data : JValue) (hm : schemaSize schema < m) :
    validate opts schema data = validateF m opts schema data :=
  (validateF_stable (schemaSize schema + 1)).1 m opts schema data (by omega) hm

theorem validateField_eq_validateFieldF {m : Nat} (opts : Options) (fieldName : String)
    (value : JValue) (spec : SchemaField) (hm : fieldSize spec < m) :
    validateField opts fieldName value spec = validateFieldF m opts fieldName value spec :=
  (validateF_stable (fieldSize spec + 1)).2 m opts fieldName value spec (by omega) hm

theorem pass2_shape_congr {o o' : Options}
    (hsm : o.strictMode = o'.strictMode)
    (hmode : o.errorCollectionMode = o'.errorCollectionMode)
    {schema : SchemaDefinition}
    {vf vf' : String → JValue → SchemaField → List ValidationError}
    (hvf : ∀ k v spec, lookupField schema k = some spec → vf k v spec = vf' k v spec) :
    ∀ entries errs result result',
    p2shape (pass2 o schema vf entries errs result) =
      p2shape (pass2 o' schema vf' entries errs result') := by
  intro entries
  induction entries with
  | nil => intro errs result result'; simp [pass2, p2shape]
  | cons entry rest ih =>
    obtain ⟨k, v⟩ := entry
    intro errs result result'
    cases hl : lookupField schema k with
    | none =>
      by_cases hst : o.strictMode = true
      · have hst' : o'.strictMode = true := by rw [← hsm]; exact hst
        by_cases hf : o.errorCollectionMode = ErrorCollectionMode.first
        · have hf' : o'.errorCollectionMode = ErrorCollectionMode.first := by
            rw [← hmode]; exact hf
          simp [pass2, hl, hst, hst', hf, hf', p2shape]
        · have hf' : ¬o'.errorCollectionMode = ErrorCollectionMode.first := by
            rw [← hmode]; exact hf
          simp only [Bool.not_eq_true] at hf hf'
          simp [pass2, hl, hst, hst', hf, hf']
          exact ih _ _ _
      · have hst' : ¬o'.strictMode = true := by rw [← hsm]; exact hst
        simp only [Bool.not_eq_true] at hst hst'
        simp [pass2, hl, hst, hst']
        exact ih _ _ _
    | some spec =>
      have hv := hvf k v spec hl
      by_cases he : decide (0 < (vf k v spec).length) = true
      · have he' : decide (0 < (vf' k v spec).length) = true := by rw [← hv]; exact he
        by_cases hf : o.errorCollectionMode = ErrorCollectionMode.first
        · have hf' : o'.errorCollectionMode = ErrorCollectionMode.first := by
            rw [← hmode]; exact hf
          simp [pass2, hl, hv, he, he', hf, hf', p2shape]
        · have hf' : ¬o'.errorCollectionMode = ErrorCollectionMode.first := by
            rw [← hmode]; exact hf
          simp [pass2, hl, hv, he, he', hf, hf']
          exact ih _ _ _
      · have he' : ¬decide (0 < (vf' k v spec).length) = true := by rw [← hv]; exact he
        simp [pass2, hl, hv, he, he']
        exact ih _ _ _

theorem validateF_te_indep :
    ∀ (n : Nat) (o o' : Options), o.strictMode = o'.strictMode →
    o.errorCollectionMode = o'.errorCollectionMode →
    (∀ schema data,
      (validateF n o schema data).valid = (validateF n o' schema data).valid ∧
      (validateF n o schema data).errors = (validateF n o' schema data).errors) ∧
    (∀ fieldName value spec,
      validateFieldF n o fieldName value spec =
        validateFieldF n o' fieldName value spec) := by
  intro n
  induction n with
  | zero => intro o o' hsm hmode; exact ⟨fun _ _ => ⟨rfl, rfl⟩, fun _ _ _ => rfl⟩
  | succ n ih =>
    intro o o' hsm hmode
    constructor
    · intro schema data
      show (validateBody o (fun fn v spec => validateFieldF n o fn v spec)
            schema data).valid =
          (validateBody o' (fun fn v spec => validateFieldF n o' fn v spec)
            schema data).valid ∧
        (validateBody o (fun fn v spec => validateFieldF n o fn v spec)
            schema data).errors =
          (validateBody o' (fun fn v spec => validateFieldF n o' fn v spec)
            schema data).errors
      unfold validateBody
      rw [requiredPass_opts_congr hmode data schema []]
      rcases hr : requiredPass o' data schema [] with l | errors
      · simp [hr]
      · have hshape := @pass2_shape_congr o o' hsm hmode schema
          (fun fn v spec => validateFieldF n o fn v spec)
          (fun fn v spec => validateFieldF n o' fn v spec)
          (fun k v spec _ => (ih o o' hsm hmode).2 k v spec)
          data.entriesOf errors [] []
        rcases hp : pass2 o schema (fun fn v spec => validateFieldF n o fn v spec)
            data.entriesOf errors [] with l | p
        · rcases hp' : pass2 o' schema (fun fn v spec => validateFieldF n o' fn v spec)
              data.entriesOf errors [] with l' | p'
          · rw [hp, hp'] at hshape
            simp only [p2shape, Sum.inl.injEq] at hshape
            subst hshape
            simp [hr, hp, hp']
          · obtain ⟨l', r'⟩ := p'
            rw [hp, hp'] at hshape
            simp [p2shape] at hshape
        · obtain ⟨errors2, result⟩ := p
          rcases hp' : pass2 o' schema (fun fn v spec => validateFieldF n o' fn v spec)
              data.entriesOf errors [] with l' | p'
          · rw [hp, hp'] at hshape
            simp [p2shape] at hshape
          · obtain ⟨errors2', result'⟩ := p'
            rw [hp, hp'] at hshape
            simp only [p2shape, Sum.inr.injEq] at hshape
            subst hshape
            simp [hr, hp, hp']
    · intro fieldName value spec
      show validateFieldBody o (fun s d => validateF n o s d)
          (fun fn v sp => validateFieldF n o fn v sp) fieldName value spec =
        validateFieldBody o' (fun s d => validateF n o' s d)
          (fun fn v sp => validateFieldF n o' fn v sp) fieldName value spec
      refine validateFieldBody_congr hmode ?_ ?_
      · intro l d _
        exact (ih o o' hsm hmode).1 l d
      · intro fn it sp _
        exact (ih o o' hsm hmode).2 fn it sp

end FuelStability

section OutputObject

theorem beq_eq_string {k k' : String} : (k == k') = true ↔ k = k' := by
  simp [beq_iff_eq]

theorem objGetKey_setKey_self (res : List (String × JValue)) (k : String) (v : JValue) :
    objGetKey (setKey res k v) k = v := by
  induction res with
  | nil => simp [setKey, objGetKey]
  | cons entry rest ih =>
    obtain ⟨k', w⟩ := entry
    by_cases hk : (k' == k) = true
    · simp [setKey, objGetKey, hk]
    · simp [setKey, objGetKey, hk, ih]

theorem objGetKey_setKey_other (res : List (String × JValue)) {k k' : String}
    (h : k ≠ k') (v : JValue) :
    objGetKey (setKey res k v) k' = objGetKey res k' := by
  induction res with
  | nil =>
    have : (k == k') = false := by
      simp [beq_eq_string]; exact h
    simp [setKey, objGetKey, this]
  | cons entry rest ih =>
    obtain ⟨k0, w⟩ := entry
    by_cases hk : (k0 == k) = true
    · have hk0 : k0 = k := beq_eq_string.mp hk
      subst hk0
      have : (k0 == k') = false := by
        simp [beq_eq_string]; exact h
      simp [setKey, objGetKey, this]
    · simp only [setKey, hk, Bool.false_eq_true, if_false]
      by_cases hk' : (k0 == k') = true
      · simp [objGetKey, hk']
      · simp [objGetKey, hk', ih]

theorem objGetKey_mem {entries : List (String × JValue)} {k : String} {v : JValue}
    (h : objGetKey entries k = v) (hv : v ≠ .undef) : (k, v) ∈ entries := by
  induction entries with
  | nil => simp [objGetKey] at h; exact absurd h.symm hv
  | cons entry rest ih =>
    obtain ⟨k0, w⟩ := entry
    by_cases hk : (k0 == k) = true
    · have : k0 = k := beq_eq_string.mp hk
      subst this
      simp only [objGetKey, hk, if_true] at h
      subst h
      exact List.mem_cons_self _ _
    · simp only [objGetKey, hk, Bool.false_eq_true, if_false] at h
      exact List.mem_cons_of_mem _ (ih h)

theorem lookupField_none_of_not_mem {schema : SchemaDefinition} {name : String}
    (h : name ∉ schemaKeys schema) : lookupField schema name = none := by
  induction schema with
  | nil => rfl
  | cons entry rest ih =>
    obtain ⟨k, f⟩ := entry
    simp only [schemaKeys, List.map_cons, List.mem_cons, not_or] at h
    have hk : (k == name) = false := by
      simp [beq_eq_string]
      exact fun hh => h.1 hh.symm
    simp only [lookupField, hk, Bool.false_eq_true, if_false]
    exact ih (by simpa [schemaKeys] using h.2)

theorem lookupField_mem_keys {schema : SchemaDefinition} {name : String}
    {spec : SchemaField} (h : lookupField schema name = some spec) :
    name ∈ schemaKeys schema := by
  by_cases hm : name ∈ schemaKeys schema
  · exact hm
  · rw [lookupField_none_of_not_mem hm] at h
    cases h

end OutputObject

section ApplyDefaultsLemmas

theorem applyDefaults_getKey_present {name : String} :
    ∀ (schema : SchemaDefinition) (res : List (String × JValue)),
    isUndef (objGetKey res name) = false →
    objGetKey (applyDefaults schema res) name = objGetKey res name := by
  intro schema
  induction schema with
  | nil => intro res _; rfl
  | cons entry rest ih =>
    obtain ⟨k, f⟩ := entry
    intro res hres
    by_cases hc : (isUndef (objGetKey res k) && defaultIsDefined f.default?) = true
    · have hk : k ≠ name := by
        intro hkn
        subst hkn
        rw [hres] at hc
        simp at hc
      simp only [applyDefaults, hc, if_true]
      rw [ih _ (by rwa [objGetKey_setKey_other res hk]),
        objGetKey_setKey_other res hk]
    · simp only [applyDefaults, hc, Bool.false_eq_true, if_false]
      exact ih res hres

theorem applyDefaults_getKey_not_schema {name : String} :
    ∀ (schema : SchemaDefinition) (res : List (String × JValue)),
    lookupField schema name = none →
    objGetKey (applyDefaults schema res) name = objGetKey res name := by
  intro schema
  induction schema with
  | nil => intro res _; rfl
  | cons entry rest ih =>
    obtain ⟨k, f⟩ := entry
    intro res hl
    by_cases hk : (k == name) = true
    · simp [lookupField, hk] at hl
    · have hkne : k ≠ name := by
        intro hkn; rw [hkn] at hk; simp at hk
      simp only [lookupField, hk, Bool.false_eq_true, if_false] at hl
      by_cases hc : (isUndef (objGetKey res k) && defaultIsDefined f.default?) = true
      · simp only [applyDefaults, hc, if_true]
        rw [ih _ hl, objGetKey_setKey_other res hkne]
      · simp only [applyDefaults, hc, Bool.false_eq_true, if_false]
        exact ih res hl

theorem applyDefaults_getKey_undef {name : String} :
    ∀ (schema : SchemaDefinition) (res : List (String × JValue)) (spec : SchemaField),
    (schemaKeys schema).Nodup →
    lookupField schema name = some spec →
    isUndef (objGetKey res name) = true →
    objGetKey (applyDefaults schema res) name =
      (if defaultIsDefined spec.default? then evalDefault spec.default? else .undef) := by
  intro schema
  induction schema with
  | nil => intro res spec _ hl; simp [lookupField] at hl
  | cons entry rest ih =>
    obtain ⟨k, f⟩ := entry
    intro res spec hnd hl hundef
    have hu : objGetKey res name = .undef := by
      cases hres : objGetKey res name <;> simp [hres, isUndef] at hundef ⊢
    simp only [schemaKeys, List.map_cons, List.nodup_cons] at hnd
    by_cases hk : (k == name) = true
    · have hkn : k = name := beq_eq_string.mp hk
      subst hkn
      simp only [lookupField, hk, if_true, Option.some.injEq] at hl
      subst hl
      have hrest : lookupField rest k = none :=
        lookupField_none_of_not_mem (by simpa [schemaKeys] using hnd.1)
      simp only [applyDefaults, hu, isUndef, Bool.true_and]
      by_cases hd : defaultIsDefined f.default? = true
      · simp only [hd, if_true]
        rw [applyDefaults_getKey_not_schema rest _ hrest, objGetKey_setKey_self]
      · simp only [hd, Bool.false_eq_true, if_false]
        rw [applyDefaults_getKey_not_schema rest _ hrest, hu]
    · have hkne : k ≠ name := by
        intro hkn; rw [hkn] at hk; simp at hk
      simp only [lookupField, hk, Bool.false_eq_true, if_false] at hl
      by_cases hc : (isUndef (objGetKey res k) && defaultIsDefined f.default?) = true
      · simp only [applyDefaults, hc, if_true]
        rw [ih _ spec hnd.2 hl (by rwa [objGetKey_setKey_other res hkne])]
      · simp only [applyDefaults, hc, Bool.false_eq_true, if_false]
        exact ih res spec hnd.2 hl hundef

end ApplyDefaultsLemmas

section Pass2Analysis

theorem pass2_errs_isPrefix (o : Options) (schema : SchemaDefinition)
    (vf : String → JValue → SchemaField → List ValidationError) :
    ∀ (entries : List (String × JValue)) errs res,
    errs <+: p2errs (pass2 o schema vf entries errs res) := by
  intro entries
  induction entries with
  | nil => intro errs res; exact List.prefix_rfl
  | cons entry rest ih =>
    obtain ⟨k, v⟩ := entry
    intro errs res
    cases hl : lookupField schema k with
    | none =>
      by_cases hst : o.strictMode = true
      · by_cases hf : o.errorCollectionMode = ErrorCollectionMode.first
        · simp only [pass2, hl, hst, Option.isNone_none, Bool.and_true, if_true, hf]
          simp only [List.length_append, List.length_cons, List.length_nil, beq_self_eq_true,
            Bool.true_and]
          simp only [show decide (0 < errs.length + (0 + 1)) = true by simp, if_true, p2errs]
          exact List.prefix_append errs _
        · have hf' : (o.errorCollectionMode == ErrorCollectionMode.first) = false := by
            simp [hf]
          simp only [pass2, hl, hst, Option.isNone_none, Bool.and_true, if_true, hf',
            Bool.false_and, Bool.false_eq_true, if_false]
          exact List.IsPrefix.trans (List.prefix_append errs _) (ih _ _)
      · simp only [Bool.not_eq_true] at hst
        simp only [pass2, hl, hst, Option.isNone_none, Bool.and_true, Bool.false_and,
          Bool.false_eq_true, if_false]
        exact ih _ _
    | some spec =>
      have hiso : (o.strictMode && (Option.some spec).isNone) = false := by
        simp
      by_cases he : decide (0 < (vf k v spec).length) = true
      · by_cases hf : o.errorCollectionMode = ErrorCollectionMode.first
        · have hlen : decide (0 < (errs ++ vf k v spec).length) = true := by
            simp only [decide_eq_true_eq] at he ⊢
            simp [List.length_append]
            omega
          simp only [pass2, hl, hiso, Bool.false_eq_true, if_false, he, if_true, hf,
            beq_self_eq_true, Bool.true_and, hlen, p2errs]
          exact List.prefix_append errs _
        · have hf' : (o.errorCollectionMode == ErrorCollectionMode.first) = false := by
            simp [hf]
          simp only [pass2, hl, hiso, Bool.false_eq_true, if_false, he, if_true, hf',
            Bool.false_and]
          exact List.IsPrefix.trans (List.prefix_append errs _) (ih _ _)
      · simp only [pass2, hl, hiso, Bool.false_eq_true, if_false, he]
        exact ih _ _

theorem pass2_inr_frozen (o : Options) (schema : SchemaDefinition)
    (vf : String → JValue → SchemaField → List ValidationError) {k : String} :
    ∀ (entries : List (String × JValue)) errs res e out,
    pass2 o schema vf entries errs res = .inr (e, out) →
    k ∉ entries.map Prod.fst →
    objGetKey out k = objGetKey res k := by
  intro entries
  induction entries with
  | nil =>
    intro errs res e out h _
    simp only [pass2, Sum.inr.injEq, Prod.mk.injEq] at h
    rw [← h.2]
  | cons entry rest ih =>
    obtain ⟨k0, v⟩ := entry
    intro errs res e out h hk
    simp only [List.map_cons, List.mem_cons, not_or] at hk
    have hk0 : k0 ≠ k := fun hh => hk.1 hh.symm
    cases hl : lookupField schema k0 with
    | none =>
      by_cases hst : o.strictMode = true
      · by_cases hf : o.errorCollectionMode = ErrorCollectionMode.first
        · simp [pass2, hl, hst, hf] at h
        · have hf' : (o.errorCollectionMode == ErrorCollectionMode.first) = false := by
            simp [hf]
          simp only [pass2, hl, hst, Option.isNone_none, Bool.and_true, if_true, hf',
            Bool.false_and, Bool.false_eq_true, if_false] at h
          exact ih _ _ _ _ h hk.2
      · simp only [Bool.not_eq_true] at hst
        simp only [pass2, hl, hst, Option.isNone_none, Bool.and_true, Bool.false_and,
          Bool.false_eq_true, if_false] at h
        rw [ih _ _ _ _ h hk.2, objGetKey_setKey_other res hk0]
    | some spec =>
      have hiso : (o.strictMode && (Option.some spec).isNone) = false := by simp
      by_cases he : decide (0 < (vf k0 v spec).length) = true
      · by_cases hf : o.errorCollectionMode = ErrorCollectionMode.first
        · simp only [pass2, hl, hiso, Bool.false_eq_true, if_false, he, if_true, hf,
            beq_self_eq_true, Bool.true_and] at h
          have hlen : decide (0 < (errs ++ vf k0 v spec).length) = true := by
            simp only [decide_eq_true_eq] at he ⊢
            simp [List.length_append]
            omega
          rw [hlen] at h
          simp at h
        · have hf' : (o.errorCollectionMode == ErrorCollectionMode.first) = false := by
            simp [hf]
          simp only [pass2, hl, hiso, Bool.false_eq_true, if_false, he, if_true, hf',
            Bool.false_and] at h
          exact ih _ _ _ _ h hk.2
      · simp only [pass2, hl, hiso, Bool.false_eq_true, if_false, he] at h
        rw [ih _ _ _ _ h hk.2, objGetKey_setKey_other res hk0]

theorem pass2_inr_step {o : Options} {schema : SchemaDefinition}
    {vf : String → JValue → SchemaField → List ValidationError}
    {k0 : String} {v0 : JValue} {rest : List (String × JValue)}
    {errs : List ValidationError} {res : List (String × JValue)}
    {e : List ValidationError} {out : List (String × JValue)}
    (h : pass2 o schema vf ((k0, v0) :: rest) errs res = .inr (e, out)) :
    ∃ errs' res', pass2 o schema vf rest errs' res' = .inr (e, out) ∧
      (res' = res ∨ ∃ w, res' = setKey res k0 w) := by
  cases hl : lookupField schema k0 with
  | none =>
    by_cases hst : o.strictMode = true
    · by_cases hf : o.errorCollectionMode = ErrorCollectionMode.first
      · simp [pass2, hl, hst, hf] at h
      · have hf' : (o.errorCollectionMode == ErrorCollectionMode.first) = false := by
          simp [hf]
        simp only [pass2, hl, hst, Option.isNone_none, Bool.and_true, if_true, hf',
          Bool.false_and, Bool.false_eq_true, if_false] at h
        exact ⟨_, res, h, Or.inl rfl⟩
    · simp only [Bool.not_eq_true] at hst
      simp only [pass2, hl, hst, Option.isNone_none, Bool.and_true, Bool.false_and,
        Bool.false_eq_true, if_false] at h
      exact ⟨errs, _, h, Or.inr ⟨v0, rfl⟩⟩
  | some spec =>
    have hiso : (o.strictMode && (Option.some spec).isNone) = false := by simp
    by_cases he : decide (0 < (vf k0 v0 spec).length) = true
    · by_cases hf : o.errorCollectionMode = ErrorCollectionMode.first
      · have hlen : decide (0 < (errs ++ vf k0 v0 spec).length) = true := by
          simp only [decide_eq_true_eq] at he ⊢
          simp [List.length_append]
          omega
        simp [pass2, hl, hiso, he, hf, hlen] at h
      · have hf' : (o.errorCollectionMode == ErrorCollectionMode.first) = false := by
          simp [hf]
        simp only [pass2, hl, hiso, Bool.false_eq_true, if_false, he, if_true, hf',
          Bool.false_and] at h
        exact ⟨_, res, h, Or.inl rfl⟩
    · simp only [pass2, hl, hiso, Bool.false_eq_true, if_false, he] at h
      exact ⟨errs, _, h, Or.inr ⟨_, rfl⟩⟩

theorem pass2_inr_getKey (o : Options) (schema : SchemaDefinition)
    (vf : String → JValue → SchemaField → List ValidationError)
    {k : String} {v : JValue} {spec : SchemaField} :
    ∀ (entries : List (String × JValue)) errs res e out,
    pass2 o schema vf entries errs res = .inr (e, out) →
    (entries.map Prod.fst).Nodup →
    (k, v) ∈ entries →
    lookupField schema k = some spec →
    vf k v spec = [] →
    objGetKey out k = storeValue o spec v := by
  intro entries
  induction entries with
  | nil => intro errs res e out _ _ hmem; cases hmem
  | cons entry rest ih =>
    obtain ⟨k0, v0⟩ := entry
    intro errs res e out h hnd hmem hl hvf
    simp only [List.map_cons, List.nodup_cons] at hnd
    rcases List.mem_cons.mp hmem with hhead | htail
    · have hk0 : k0 = k := by cases hhead; rfl
      have hv0 : v0 = v := by cases hhead; rfl
      subst hk0
      subst hv0
      have hiso : (o.strictMode && (Option.some spec).isNone) = false := by simp
      have he : decide (0 < (vf k0 v0 spec).length) = false := by simp [hvf]
      simp only [pass2, hl, hiso, Bool.false_eq_true, if_false, he] at h
      rw [pass2_inr_frozen o schema vf rest _ _ _ _ h hnd.1,
        objGetKey_setKey_self]
      rfl
    · have hk0k : k0 ≠ k := by
        intro hh
        exact hnd.1 (hh ▸ List.mem_map_of_mem Prod.fst htail)
      obtain ⟨errs', res', hrec, _⟩ := pass2_inr_step h
      exact ih errs' res' e out hrec hnd.2 htail hl hvf

theorem pass2_inr_passthrough (o : Options) (schema : SchemaDefinition)
    (vf : String → JValue → SchemaField → List ValidationError)
    {k : String} {v : JValue} (hst : o.strictMode = false)
    (hl : lookupField schema k = none) :
    ∀ (entries : List (String × JValue)) errs res e out,
    pass2 o schema vf entries errs res = .inr (e, out) →
    (entries.map Prod.fst).Nodup →
    (k, v) ∈ entries →
    objGetKey out k = v := by
  intro entries
  induction entries with
  | nil => intro errs res e out _ _ hmem; cases hmem
  | cons entry rest ih =>
    obtain ⟨k0, v0⟩ := entry
    intro errs res e out h hnd hmem
    simp only [List.map_cons, List.nodup_cons] at hnd
    rcases List.mem_cons.mp hmem with hhead | htail
    · have hk0 : k0 = k := by cases hhead; rfl
      have hv0 : v0 = v := by cases hhead; rfl
      subst hk0
      subst hv0
      simp only [pass2, hl, hst, Option.isNone_none, Bool.and_true, Bool.false_and,
        Bool.false_eq_true, if_false] at h
      rw [pass2_inr_frozen o schema vf rest _ _ _ _ h hnd.1,
        objGetKey_setKey_self]
    · obtain ⟨errs', res', hrec, _⟩ := pass2_inr_step h
      exact ih errs' res' e out hrec hnd.2 htail

theorem pass2_inr_strict_unknown (o : Options) (schema : SchemaDefinition)
    (vf : String → JValue → SchemaField → List ValidationError)
    {k : String} (hst : o.strictMode = true)
    (hl : lookupField schema k = none) :
    ∀ (entries : List (String × JValue)) errs res e out,
    pass2 o schema vf entries errs res = .inr (e, out) →
    objGetKey out k = objGetKey res k := by
  intro entries
  induction entries with
  | nil =>
    intro errs res e out h
    simp only [pass2, Sum.inr.injEq, Prod.mk.injEq] at h
    rw [← h.2]
  | cons entry rest ih =>
    obtain ⟨k0, v0⟩ := entry
    intro errs res e out h
    by_cases hk0 : k0 = k
    · subst hk0
      by_cases hf : o.errorCollectionMode = ErrorCollectionMode.first
      · simp [pass2, hl, hst, hf] at h
      · have hf' : (o.errorCollectionMode == ErrorCollectionMode.first) = false := by
          simp [hf]
        simp only [pass2, hl, hst, Option.isNone_none, Bool.and_true, if_true, hf',
          Bool.false_and, Bool.false_eq_true, if_false] at h
        exact ih _ _ _ _ h
    · obtain ⟨errs', res', hrec, hres⟩ := pass2_inr_step h
      rcases hres with rfl | ⟨w, rfl⟩
      · exact ih _ _ _ _ hrec
      · rw [ih _ _ _ _ hrec, objGetKey_setKey_other res hk0]

end Pass2Analysis

section ValidateShape

theorem validateFieldF_null (n : Nat) (opts : Options) (fieldName : String)
    (spec : SchemaField) :
    validateFieldF (n + 1) opts fieldName .null spec =
      (if spec.nullable then [] else [⟨fieldName, cannotBeNullMsg fieldName, .null⟩]) := rfl

theorem validateField_null (opts : Options) (fieldName : String) (spec : SchemaField) :
    validateField opts fieldName .null spec =
      (if spec.nullable then [] else [⟨fieldName, cannotBeNullMsg fieldName, .null⟩]) := rfl

theorem storeValue_transform_none {opts : Options} {spec : SchemaField}
    (h : spec.transform = none) (v : JValue) : storeValue opts spec v = v := by
  unfold storeValue
  rw [h]
  cases opts.transformEnabled <;> rfl

theorem validate_success_shape {opts : Options} {schema : SchemaDefinition}
    {data : JValue} {out : JValue}
    (h : (validate opts schema data).data = some out) :
    ∃ result,
      requiredPass opts data schema [] = .inr [] ∧
      pass2 opts schema
        (fun fn v spec => validateFieldF (schemaSize schema) opts fn v spec)
        data.entriesOf [] [] = .inr ([], result) ∧
      out = .obj (applyDefaults schema result) ∧
      (validate opts schema data).errors = [] ∧
      (validate opts schema data).valid = true := by
  have hv : validate opts schema data =
      validateF (schemaSize schema + 1) opts schema data := rfl
  rw [hv] at h ⊢
  simp only [validateF, validateBody] at h ⊢
  rcases hr : requiredPass opts data schema [] with l | errors
  · simp [hr] at h
  · simp only [hr] at h ⊢
    rcases hp : pass2 opts schema
        (fun fn v spec => validateFieldF (schemaSize schema) opts fn v spec)
        data.entriesOf errors [] with l2 | p
    · simp [hp] at h
    · obtain ⟨errors2, result⟩ := p
      by_cases he : errors2.length = 0
      · have he' : errors2 = [] := List.length_eq_zero.mp he
        subst he'
        have hpre := pass2_errs_isPrefix opts schema
          (fun fn v spec => validateFieldF (schemaSize schema) opts fn v spec)
          data.entriesOf errors []
        rw [hp] at hpre
        simp only [p2errs] at hpre
        have herrs : errors = [] := List.prefix_nil.mp hpre
        subst herrs
        refine ⟨result, rfl, hp, ?_, ?_, ?_⟩
        · simp [hp] at h
          exact h.symm
        · simp [hp]
        · simp [hp]
      · exfalso
        simp [hp, he] at h

end ValidateShape

section Membership

theorem reqList_mem {data : JValue} {name : String} {spec : SchemaField} :
    ∀ {schema : SchemaDefinition}, lookupField schema name = some spec →
    missingRequired data name spec = true →
    (⟨name, requiredMsg name, .undef⟩ : ValidationError) ∈ reqList data schema := by
  intro schema
  induction schema with
  | nil => intro hl; simp [lookupField] at hl
  | cons entry rest ih =>
    obtain ⟨k, f⟩ := entry
    intro hl hm
    by_cases hk : (k == name) = true
    · have hkn : k = name := beq_eq_string.mp hk
      subst hkn
      simp only [lookupField, hk, if_true, Option.some.injEq] at hl
      subst hl
      simp only [reqList, hm, if_true]
      exact List.mem_cons_self _ _
    · simp only [lookupField, hk, Bool.false_eq_true, if_false] at hl
      by_cases hm0 : missingRequired data k f
      · simp only [reqList, hm0, if_true]
        exact List.mem_cons_of_mem _ (ih hl hm)
      · simp only [reqList, hm0, Bool.false_eq_true, if_false]
        exact ih hl hm

theorem pass2ErrsAll_mem {o : Options} {schema : SchemaDefinition}
    {vf : String → JValue → SchemaField → List ValidationError}
    {k : String} {v : JValue} {spec : SchemaField} {err : ValidationError} :
    ∀ {entries : List (String × JValue)},
    (k, v) ∈ entries →
    lookupField schema k = some spec →
    err ∈ vf k v spec →
    err ∈ pass2ErrsAll o schema vf entries := by
  intro entries
  induction entries with
  | nil => intro hmem; cases hmem
  | cons entry rest ih =>
    obtain ⟨k0, v0⟩ := entry
    intro hmem hl herr
    rcases List.mem_cons.mp hmem with hhead | htail
    · have hk0 : k0 = k := by cases hhead; rfl
      have hv0 : v0 = v := by cases hhead; rfl
      subst hk0
      subst hv0
      simp only [pass2ErrsAll, hl, Option.isNone_some, Bool.and_false,
        Bool.false_eq_true, if_false]
      exact List.mem_append_left _ herr
    · simp only [pass2ErrsAll]
      exact List.mem_append_right _ (ih htail hl herr)

theorem pass2ErrsAll_unknown_mem {o : Options} {schema : SchemaDefinition}
    {vf : String → JValue → SchemaField → List ValidationError}
    {k : String} {v : JValue} (hst : o.strictMode = true)
    (hl : lookupField schema k = none) :
    ∀ {entries : List (String × JValue)}, (k, v) ∈ entries →
    (⟨k, unknownMsg k, v⟩ : ValidationError) ∈ pass2ErrsAll o schema vf entries := by
  intro entries
  induction entries with
  | nil => intro hmem; cases hmem
  | cons entry rest ih =>
    obtain ⟨k0, v0⟩ := entry
    intro hmem
    rcases List.mem_cons.mp hmem with hhead | htail
    · have hk0 : k0 = k := by cases hhead; rfl
      have hv0 : v0 = v := by cases hhead; rfl
      subst hk0
      subst hv0
      simp only [pass2ErrsAll, hst, hl, Option.isNone_none, Bool.and_true, if_true]
      exact List.mem_append_left _ (List.mem_singleton.mpr rfl)
    · simp only [pass2ErrsAll]
      exact List.mem_append_right _ (ih htail)

theorem validate_errors_all {opts : Options} (hmode : opts.errorCollectionMode = .all)
    (schema : SchemaDefinition) (data : JValue) :
    (validate opts schema data).errors =
      reqList data schema ++
        pass2ErrsAll opts schema
          (fun fn v spec => validateFieldF (schemaSize schema) opts fn v spec)
          data.entriesOf := by
  have hv : validate opts schema data =
      validateF (schemaSize schema + 1) opts schema data := rfl
  rw [hv]
  simp only [validateF, validateBody]
  rw [requiredPass_all hmode data schema []]
  simp [pass2_all hmode schema
    (fun fn v spec => validateFieldF (schemaSize schema) opts fn v spec)]

end Membership

section Decompose

theorem map_prefix_of_invariant {r : ValidationResult} {f : ValidationError → ValidationError}
    (hv : r.valid = true ↔ r.errors = []) :
    (if !r.valid then r.errors.map f else []) = r.errors.map f := by
  by_cases h : r.valid = true
  · rw [hv.mp h]
    simp [h]
  · simp only [Bool.not_eq_true] at h
    simp [h]

theorem validateField_decompose {opts : Options} {fieldName : String} {value : JValue}
    {spec : SchemaField}
    (h1 : isNull value = false) (h2 : (isUndef value && !spec.required) = false)
    (h3 : validateType value spec = true) :
    validateField opts fieldName value spec =
      nestedObjectErrors (fun l d => validate opts l d) fieldName value spec ++
      nestedArrayErrors (fun l d => validate opts l d)
        (fun fn it sp => validateField opts fn it sp) fieldName value spec ++
      ruleErrors opts fieldName value spec.rules := by
  show validateFieldBody opts (fun s d => validateF (fieldSize spec) opts s d)
      (fun fn v sp => validateFieldF (fieldSize spec) opts fn v sp)
      fieldName value spec = _
  unfold validateFieldBody
  rw [h1]
  simp only [Bool.false_eq_true, if_false, h2, h3, Bool.not_true]
  have hobj : nestedObjectErrors (fun s d => validateF (fieldSize spec) opts s d)
      fieldName value spec =
      nestedObjectErrors (fun l d => validate opts l d) fieldName value spec := by
    cases hfl : spec.fields with
    | none => rw [nestedObjectErrors_of_none hfl, nestedObjectErrors_of_none hfl]
    | some nestedSchema =>
      rw [nestedObjectErrors_of_some hfl, nestedObjectErrors_of_some hfl]
      have hsz := fields_size hfl
      have heq : validate opts nestedSchema value =
          validateF (fieldSize spec) opts nestedSchema value :=
        validate_eq_validateF opts nestedSchema value (by omega)
      rw [← heq]
  have harr : nestedArrayErrors (fun s d => validateF (fieldSize spec) opts s d)
      (fun fn v sp => validateFieldF (fieldSize spec) opts fn v sp)
      fieldName value spec =
      nestedArrayErrors (fun l d => validate opts l d)
        (fun fn it sp => validateField opts fn it sp) fieldName value spec := by
    cases hit : spec.items with
    | none => rw [nestedArrayErrors_of_none hit, nestedArrayErrors_of_none hit]
    | some itemsSpec =>
      have hsz := items_size hit
      cases value
      case arr elems =>
        rw [nestedArrayErrors_of_some_arr hit, nestedArrayErrors_of_some_arr hit]
        by_cases hty : (spec.type == FieldType.array) = true
        · simp only [hty, if_true]
          refine arrayItemsErrors_congr ?_ ?_ 0 elems
          · intro l d hl
            have := fields_size hl
            have heq : validate opts l d = validateF (fieldSize spec) opts l d :=
              validate_eq_validateF opts l d (by omega)
            rw [← heq]
            exact ⟨rfl, rfl⟩
          · intro fn it
            exact (validateField_eq_validateFieldF opts fn it itemsSpec (by omega)).symm
        · simp [hty]
      all_goals
        exact Eq.trans (nestedArrayErrors_of_not_arr _ _ _ (by rfl))
          (nestedArrayErrors_of_not_arr _ _ _ (by rfl)).symm
  rw [hobj, harr]

end Decompose

/-- C1: For every schema, configuration, and input data, the ValidationResult
returned by `validate` satisfies: `valid` is true if and only if the `errors`
list is empty, and `valid` is true if and only if `data` is present (the null
absence-marker otherwise) — in particular `data` is never a partially-built
object when errors exist. -/
theorem validate_valid_iff_no_errors_and_data_present (opts : Options)
    (schema : SchemaDefinition) (data : JValue) :
    ((validate opts schema data).valid = true ↔
      (validate opts schema data).errors = []) ∧
    ((validate opts schema data).valid = true ↔
      (validate opts schema data).data ≠ none) :=
  validateF_valid_iff (schemaSize schema + 1) opts schema data

/-- C5: Errors from a nested-object recursion are re-emitted by the caller
with the field path prefixed as `<fieldName>.<nestedFieldName>` (dot join),
preserving the nested message and value verbatim; in particular, for a schema
with a nested required string `user.profile.firstName` and input
`{user:{profile:{}}}`, the single error has field path exactly
`"user.profile.firstName"` and message `"Field 'firstName' is required"`. -/
theorem validateField_nested_object_error_prefixing :
    (∀ (opts : Options) (fieldName : String) (entries : List (String × JValue))
        (req nl : Bool) (flds : SchemaDefinition),
      validateField opts fieldName (.obj entries)
          (.mk .object req nl [] none none (some flds) none) =
        ((validate opts flds (.obj entries)).errors).map (prefixErr fieldName)) ∧
    validate defaultOptions schemaB (.obj [("user", .obj [("profile", .obj [])])]) =
      ⟨false, [⟨"user.profile.firstName", requiredMsg "firstName", .undef⟩], none⟩ := by
  constructor
  · intro opts fieldName entries req nl flds
    rw [validateField_decompose (by rfl) (by cases req <;> rfl) (by rfl)]
    rw [nestedObjectErrors_of_some (by rfl), nestedArrayErrors_of_none (by rfl)]
    have hv : (validate opts flds (.obj entries)).valid = true ↔
        (validate opts flds (.obj entries)).errors = [] :=
      (validateF_valid_iff (schemaSize flds + 1) opts flds (.obj entries)).1
    simp only [SchemaField.type, SchemaField.rules, beq_self_eq_true, typeofIsObject,
      Bool.and_self, if_true]
    rw [map_prefix_of_invariant hv]
    simp [ruleErrors]
  · rfl

/-- C6: Within validation of a single field, errors accumulate in the order
nested-object recursion, nested-array recursion (elements in index order),
then rule-chain evaluation; for the array field `tags` with
`items:{type:string, rules:[min(2)]}` and own rules `[unique()]`, input
`{tags:["a","bb","bb"]}` in "all" mode yields exactly two errors, one for
`tags[0]` (min length) followed by one for `tags` itself (unique violation),
in that order. -/
theorem array_field_two_errors_in_order :
    validate defaultOptions schemaC
        (.obj [("tags", .arr [.str "a", .str "bb", .str "bb"])]) =
      ⟨false,
        [⟨"tags[0]", "tags[0] must be at least 2 characters long", .str "a"⟩,
         ⟨"tags", "tags must contain unique items",
           .arr [.str "a", .str "bb", .str "bb"]⟩], none⟩ := rfl

/-- C3 counterexample: for a nullable string field `f` with input `{f: null}`,
the claim says the field is omitted from the output object; the code instead
stores it in the output with value null (`result.f = null`), as this run
shows: validation succeeds and the output is exactly `{f: null}`. -/
theorem nullable_null_field_in_output_counterexample :
    validate defaultOptions schemaNullable (.obj [("f", .null)]) =
      ⟨true, [], some (.obj [("f", .null)])⟩ := rfl

/-- C3 amended: for a schema field with `nullable` true whose data value is
explicitly null, field validation produces no error; the field is NOT omitted
from the output object — it is stored there with value null (when no
transform applies) — and default substitution is not triggered for it, because
its output entry is null rather than the undefined marker. -/
theorem nullable_null_field_no_error_and_kept_null :
    (∀ (opts : Options) (fieldName : String) (spec : SchemaField),
      spec.nullable = true → validateField opts fieldName .null spec = []) ∧
    (∀ (opts : Options) (schema : SchemaDefinition) (data : JValue) (name : String)
        (spec : SchemaField) (out : JValue),
      lookupField schema name = some spec → spec.nullable = true →
      spec.transform = none → (objKeys data).Nodup →
      data.getKey name = .null →
      (validate opts schema data).data = some out →
      out.getKey name = .null) := by
  constructor
  · intro opts fieldName spec hnul
    rw [validateField_null, hnul]
    rfl
  · intro opts schema data name spec out hl hnul htr hnd hget hdata
    obtain ⟨result, hreq, hp, hout, _, _⟩ := validate_success_shape hdata
    cases data with
    | obj entries =>
      have hget' : objGetKey entries name = .null := hget
      have hmem : (name, JValue.null) ∈ entries :=
        objGetKey_mem hget' (by intro hh; cases hh)
      have hnd' : (entries.map Prod.fst).Nodup := by
        simpa [objKeys, JValue.entriesOf] using hnd
      have hfs := lookupField_size hl
      obtain ⟨m, hm⟩ : ∃ m, schemaSize schema = m + 1 :=
        ⟨schemaSize schema - 1, by omega⟩
      have hvf : validateFieldF (schemaSize schema) opts name .null spec = [] := by
        rw [hm, validateFieldF_null, hnul]
        rfl
      have hstore := pass2_inr_getKey opts schema
        (fun fn v sp => validateFieldF (schemaSize schema) opts fn v sp)
        entries [] [] [] result hp hnd' hmem hl hvf
      rw [storeValue_transform_none htr] at hstore
      rw [hout]
      show objGetKey (applyDefaults schema result) name = .null
      rw [applyDefaults_getKey_present schema result (by rw [hstore]; rfl), hstore]
    | undef => cases hget
    | null => cases hget
    | bool b => cases hget
    | num n => cases hget
    | nan => cases hget
    | str s => cases hget
    | arr elems => cases hget

/-- C3 amended witness: the amended theorem applied to the concrete nullable
field scenario. -/
theorem nullable_null_field_witness :
    nullableStringSpec.nullable = true ∧
    lookupField schemaNullable "f" = some nullableStringSpec ∧
    nullableStringSpec.transform = none ∧
    (objKeys (.obj [("f", JValue.null)])).Nodup ∧
    (JValue.obj [("f", JValue.null)]).getKey "f" = .null ∧
    (validate defaultOptions schemaNullable (.obj [("f", .null)])).data =
      some (.obj [("f", .null)]) ∧
    validateField defaultOptions "f" .null nullableStringSpec = [] ∧
    (JValue.obj [("f", JValue.null)]).getKey "f" = .null :=
  ⟨rfl, rfl, rfl, by simp [objKeys, JValue.entriesOf], rfl, rfl,
    nullable_null_field_no_error_and_kept_null.1 defaultOptions "f" nullableStringSpec rfl,
    nullable_null_field_no_error_and_kept_null.2 defaultOptions schemaNullable
      (.obj [("f", .null)]) "f" nullableStringSpec (.obj [("f", .null)])
      rfl rfl rfl (by simp [objKeys, JValue.entriesOf]) rfl rfl⟩

/-- C4: Default substitution, run after the per-field pass, assigns a field's
default exactly when the output entry for that field is the undefined marker
after pass 2 and the spec declares a default; a present value — even a falsy
one such as 0 or false — is never overridden; a zero-argument function default
is called and its return value used, any other default is used literally; and
because the check is keyed on the output object, a transform that produced
undefined causes the default to apply (concrete run below). -/
theorem default_substitution_keyed_on_output :
    (∀ (schema : SchemaDefinition) (res : List (String × JValue)) (name : String)
        (spec : SchemaField),
      (schemaKeys schema).Nodup → lookupField schema name = some spec →
      isUndef (objGetKey res name) = true → defaultIsDefined spec.default? = true →
      objGetKey (applyDefaults schema res) name = evalDefault spec.default?) ∧
    (∀ (schema : SchemaDefinition) (res : List (String × JValue)) (name : String)
        (spec : SchemaField),
      (schemaKeys schema).Nodup → lookupField schema name = some spec →
      isUndef (objGetKey res name) = true → defaultIsDefined spec.default? = false →
      objGetKey (applyDefaults schema res) name = .undef) ∧
    (∀ (schema : SchemaDefinition) (res : List (String × JValue)) (name : String),
      isUndef (objGetKey res name) = false →
      objGetKey (applyDefaults schema res) name = objGetKey res name) ∧
    (∀ v : JValue, evalDefault (some (.val v)) = v) ∧
    (∀ f : Unit → JValue, evalDefault (some (.fn f)) = f ()) ∧
    validate defaultOptions schemaTrUndef (.obj [("a", .num 1)]) =
      ⟨true, [], some (.obj [("a", .num 7)])⟩ := by
  refine ⟨?_, ?_, ?_, fun _ => rfl, fun _ => rfl, rfl⟩
  · intro schema res name spec hnd hl hu hd
    rw [applyDefaults_getKey_undef schema res spec hnd hl hu]
    simp [hd]
  · intro schema res name spec hnd hl hu hd
    rw [applyDefaults_getKey_undef schema res spec hnd hl hu]
    simp [hd]
  · intro schema res name h
    exact applyDefaults_getKey_present schema res h

/-- C4 witness: the default-substitution characterisation applied to a
concrete schema with a literal default and an empty output object. -/
theorem default_substitution_witness :
    (schemaKeys schemaWithDefault).Nodup ∧
    lookupField schemaWithDefault "x" =
      some (.mk .any false false [] none (some (.val (.num 5))) none none) ∧
    isUndef (objGetKey [] "x") = true ∧
    defaultIsDefined (some (DefaultValue.val (.num 5))) = true ∧
    objGetKey (applyDefaults schemaWithDefault []) "x" = .num 5 :=
  ⟨by simp [schemaKeys, schemaWithDefault], rfl, rfl, rfl,
    (default_substitution_keyed_on_output.1 schemaWithDefault [] "x"
      (.mk .any false false [] none (some (.val (.num 5))) none none)
      (by simp [schemaKeys, schemaWithDefault]) rfl rfl rfl).trans rfl⟩

/-- C7: When strictMode is true, in "all" mode every data key with no matching
schema field produces an `Unknown field '<name>'` error, and such keys are
excluded from the output object; when strictMode is false, unknown keys pass
through to the output untouched; in particular, with strictMode=true, schema
`{name:{type:string}}`, input `{name:"x", extra:1}`, the result contains the
single error `{field:"extra", message:"Unknown field 'extra'"}` and the
output data excludes `extra`. -/
theorem strict_mode_unknown_field_handling :
    (validate ⟨true, true, .all⟩ schemaD (.obj [("name", .str "x"), ("extra", .num 1)]) =
      ⟨false, [⟨"extra", unknownMsg "extra", .num 1⟩], none⟩) ∧
    (∀ (opts : Options) (schema : SchemaDefinition) (data : JValue) (k : String)
        (v : JValue),
      opts.errorCollectionMode = .all → opts.strictMode = true →
      lookupField schema k = none → (k, v) ∈ data.entriesOf →
      (⟨k, unknownMsg k, v⟩ : ValidationError) ∈ (validate opts schema data).errors) ∧
    (∀ (opts : Options) (schema : SchemaDefinition) (data : JValue) (k : String)
        (out : JValue),
      opts.strictMode = true → lookupField schema k = none →
      (validate opts schema data).data = some out →
      out.getKey k = .undef) ∧
    (∀ (opts : Options) (schema : SchemaDefinition) (data : JValue) (k : String)
        (v : JValue) (out : JValue),
      opts.strictMode = false → lookupField schema k = none →
      (objKeys data).Nodup → (k, v) ∈ data.entriesOf →
      (validate opts schema data).data = some out →
      out.getKey k = v) := by
  refine ⟨rfl, ?_, ?_, ?_⟩
  · intro opts schema data k v hmode hst hl hmem
    rw [validate_errors_all hmode]
    exact List.mem_append_right _ (pass2ErrsAll_unknown_mem hst hl hmem)
  · intro opts schema data k out hst hl hdata
    obtain ⟨result, hreq, hp, hout, _, _⟩ := validate_success_shape hdata
    have hres := pass2_inr_strict_unknown opts schema
      (fun fn v sp => validateFieldF (schemaSize schema) opts fn v sp)
      hst hl data.entriesOf [] [] [] result hp
    rw [hout]
    show objGetKey (applyDefaults schema result) k = .undef
    rw [applyDefaults_getKey_not_schema schema result hl, hres]
    rfl
  · intro opts schema data k v out hst hl hnd hmem hdata
    obtain ⟨result, hreq, hp, hout, _, _⟩ := validate_success_shape hdata
    have hnd' : (data.entriesOf.map Prod.fst).Nodup := by
      simpa [objKeys] using hnd
    have hres := pass2_inr_passthrough opts schema
      (fun fn v sp => validateFieldF (schemaSize schema) opts fn v sp)
      hst hl data.entriesOf [] [] [] result hp hnd' hmem
    rw [hout]
    show objGetKey (applyDefaults schema result) k = v
    rw [applyDefaults_getKey_not_schema schema result hl, hres]

/-- C7 witness: the strict-exclusion and passthrough parts applied to concrete
runs. -/
theorem strict_mode_unknown_field_witness :
    ((⟨true, true, .all⟩ : Options).errorCollectionMode = .all ∧
      (⟨true, true, .all⟩ : Options).strictMode = true ∧
      lookupField schemaD "extra" = none ∧
      ("extra", JValue.num 1) ∈
        (JValue.obj [("name", .str "x"), ("extra", .num 1)]).entriesOf ∧
      (⟨"extra", unknownMsg "extra", .num 1⟩ : ValidationError) ∈
        (validate ⟨true, true, .all⟩ schemaD
          (.obj [("name", .str "x"), ("extra", .num 1)])).errors) ∧
    ((validate defaultOptions schemaD (.obj [("extra", .num 1)])).data =
        some (.obj [("extra", .num 1)]) ∧
      (JValue.obj [("extra", .num 1)]).getKey "extra" = .num 1) :=
  ⟨⟨rfl, rfl, rfl, by simp [JValue.entriesOf],
    strict_mode_unknown_field_handling.2.1 ⟨true, true, .all⟩ schemaD
      (.obj [("name", .str "x"), ("extra", .num 1)]) "extra" (.num 1)
      rfl rfl rfl (by simp [JValue.entriesOf])⟩,
   ⟨rfl,
    strict_mode_unknown_field_handling.2.2.2 defaultOptions schemaD
      (.obj [("extra", .num 1)]) "extra" (.num 1) (.obj [("extra", .num 1)])
      rfl rfl (by simp [objKeys, JValue.entriesOf]) (by simp [JValue.entriesOf]) rfl⟩⟩

/-- C8: The required-field pass visits schema fields in schema order, and in
"first" mode returns immediately on the very first missing required field,
with errors containing only that error and data absent; in particular, with
mode "first", schema `{a:{type:string,required:true}, b:{type:number,
required:true}}` and input `{}`, the errors list has length 1 referencing
field `"a"` only, and data is absent. -/
theorem first_mode_required_pass_immediate_return :
    (∀ (opts : Options) (schema : SchemaDefinition) (data : JValue) (name : String),
      opts.errorCollectionMode = .first →
      firstMissingRequired data schema = some name →
      validate opts schema data =
        ⟨false, [⟨name, requiredMsg name, .undef⟩], none⟩) ∧
    validate ⟨true, false, .first⟩ schemaE (.obj []) =
      ⟨false, [⟨"a", requiredMsg "a", .undef⟩], none⟩ := by
  constructor
  · intro opts schema data name hmode hfirst
    have hv : validate opts schema data =
        validateF (schemaSize schema + 1) opts schema data := rfl
    rw [hv]
    simp only [validateF, validateBody]
    rw [requiredPass_first_some hmode data schema name hfirst []]
    simp
  · rfl

/-- C8 witness: the general first-mode immediate-return theorem applied to
scenario E. -/
theorem first_mode_required_witness :
    (⟨true, false, .first⟩ : Options).errorCollectionMode = .first ∧
    firstMissingRequired (.obj []) schemaE = some "a" ∧
    validate ⟨true, false, .first⟩ schemaE (.obj []) =
      ⟨false, [⟨"a", requiredMsg "a", .undef⟩], none⟩ :=
  ⟨rfl, rfl,
    first_mode_required_pass_immediate_return.1 ⟨true, false, .first⟩ schemaE
      (.obj []) "a" rfl rfl⟩

/-- C10 (implicit): in "all" mode, a schema field with `required` true and
`nullable` false whose data value is explicitly null produces two error
entries for that field, in this order: `Field '<name>' is required` (from the
required-field pass) followed by `Field '<name>' cannot be null` (from the
per-field pass); with a single-field schema the error list is exactly those
two entries in that order. -/
theorem required_null_field_two_errors_in_order :
    (∀ (opts : Options) (schema : SchemaDefinition) (data : JValue) (name : String)
        (spec : SchemaField),
      opts.errorCollectionMode = .all →
      lookupField schema name = some spec →
      spec.required = true → spec.nullable = false →
      data.getKey name = .null →
      List.Sublist
        [⟨name, requiredMsg name, .undef⟩, ⟨name, cannotBeNullMsg name, .null⟩]
        (validate opts schema data).errors) ∧
    validate defaultOptions schemaReqNonNull (.obj [("f", .null)]) =
      ⟨false, [⟨"f", requiredMsg "f", .undef⟩, ⟨"f", cannotBeNullMsg "f", .null⟩],
        none⟩ := by
  constructor
  · intro opts schema data name spec hmode hl hreq hnul hget
    rw [validate_errors_all hmode]
    have hreqmem : (⟨name, requiredMsg name, .undef⟩ : ValidationError) ∈
        reqList data schema := by
      refine reqList_mem hl ?_
      simp [missingRequired, hreq, hnul, hget, isUndef, isNull]
    have hfs := lookupField_size hl
    obtain ⟨m, hm⟩ : ∃ m, schemaSize schema = m + 1 :=
      ⟨schemaSize schema - 1, by omega⟩
    have hnullmem : (⟨name, cannotBeNullMsg name, .null⟩ : ValidationError) ∈
        pass2ErrsAll opts schema
          (fun fn v sp => validateFieldF (schemaSize schema) opts fn v sp)
          data.entriesOf := by
      cases data with
      | obj entries =>
        have hget' : objGetKey entries name = .null := hget
        have hmem : (name, JValue.null) ∈ entries :=
          objGetKey_mem hget' (by intro hh; cases hh)
        refine pass2ErrsAll_mem hmem hl ?_
        rw [hm, validateFieldF_null, hnul]
        exact List.mem_singleton.mpr rfl
      | undef => cases hget
      | null => cases hget
      | bool b => cases hget
      | num n => cases hget
      | nan => cases hget
      | str s => cases hget
      | arr elems => cases hget
    exact List.Sublist.append (List.singleton_sublist.mpr hreqmem)
      (List.singleton_sublist.mpr hnullmem)
  · rfl

/-- C10 witness: the two-error theorem applied to the concrete single-field
schema. -/
theorem required_null_field_witness :
    defaultOptions.errorCollectionMode = .all ∧
    lookupField schemaReqNonNull "f" =
      some (.mk .string true false [] none none none none) ∧
    (JValue.obj [("f", JValue.null)]).getKey "f" = .null ∧
    List.Sublist
      [⟨"f", requiredMsg "f", .undef⟩, ⟨"f", cannotBeNullMsg "f", .null⟩]
      (validate defaultOptions schemaReqNonNull (.obj [("f", .null)])).errors :=
  ⟨rfl, rfl, rfl,
    required_null_field_two_errors_in_order.1 defaultOptions schemaReqNonNull
      (.obj [("f", .null)]) "f" (.mk .string true false [] none none none none)
      rfl rfl rfl rfl rfl⟩

section FirstModeLemmas

theorem firstMissingRequired_none_reqList {data : JValue} :
    ∀ {schema : SchemaDefinition}, firstMissingRequired data schema = none →
    reqList data schema = [] := by
  intro schema
  induction schema with
  | nil => intro _; rfl
  | cons entry rest ih =>
    obtain ⟨k, f⟩ := entry
    intro h
    by_cases hm : missingRequired data k f
    · simp [firstMissingRequired, hm] at h
    · simp only [firstMissingRequired, hm, Bool.false_eq_true, if_false] at h
      simp only [reqList, hm, Bool.false_eq_true, if_false]
      exact ih h

theorem firstMissingRequired_some_reqList {data : JValue} {name : String} :
    ∀ {schema : SchemaDefinition}, firstMissingRequired data schema = some name →
    reqList data schema ≠ [] := by
  intro schema
  induction schema with
  | nil => intro h; simp [firstMissingRequired] at h
  | cons entry rest ih =>
    obtain ⟨k, f⟩ := entry
    intro h
    by_cases hm : missingRequired data k f
    · simp [reqList, hm]
    · simp only [firstMissingRequired, hm, Bool.false_eq_true, if_false] at h
      simp only [reqList, hm, Bool.false_eq_true, if_false]
      exact ih h

theorem pass2_first_cases {o : Options} (hf : o.errorCollectionMode = .first)
    (schema : SchemaDefinition)
    (vf : String → JValue → SchemaField → List ValidationError) :
    ∀ (entries : List (String × JValue)) (res : List (String × JValue)),
    (∃ out, pass2 o schema vf entries [] res = .inr ([], out)) ∨
    (∃ k v, (k, v) ∈ entries ∧
      pass2 o schema vf entries [] res = .inl [⟨k, unknownMsg k, v⟩]) ∨
    (∃ k v spec, (k, v) ∈ entries ∧ lookupField schema k = some spec ∧
      vf k v spec ≠ [] ∧ pass2 o schema vf entries [] res = .inl (vf k v spec)) := by
  intro entries
  induction entries with
  | nil => intro res; exact Or.inl ⟨res, rfl⟩
  | cons entry rest ih =>
    obtain ⟨k, v⟩ := entry
    intro res
    cases hl : lookupField schema k with
    | none =>
      by_cases hst : o.strictMode = true
      · refine Or.inr (Or.inl ⟨k, v, List.mem_cons_self _ _, ?_⟩)
        simp [pass2, hl, hst, hf]
      · simp only [Bool.not_eq_true] at hst
        have hrec := ih (setKey res k v)
        have hstep : pass2 o schema vf ((k, v) :: rest) [] res =
            pass2 o schema vf rest [] (setKey res k v) := by
          simp [pass2, hl, hst]
        rw [hstep]
        rcases hrec with ⟨out, hout⟩ | ⟨k', v', hmem, hout⟩ | ⟨k', v', spec, hmem, hl', hne, hout⟩
        · exact Or.inl ⟨out, hout⟩
        · exact Or.inr (Or.inl ⟨k', v', List.mem_cons_of_mem _ hmem, hout⟩)
        · exact Or.inr (Or.inr ⟨k', v', spec, List.mem_cons_of_mem _ hmem, hl', hne, hout⟩)
    | some spec =>
      have hiso : (o.strictMode && (Option.some spec).isNone) = false := by simp
      by_cases he : decide (0 < (vf k v spec).length) = true
      · refine Or.inr (Or.inr ⟨k, v, spec, List.mem_cons_self _ _, hl, ?_, ?_⟩)
        · simp only [decide_eq_true_eq] at he
          intro hnil
          rw [hnil] at he
          simp at he
        · have hlen : decide (0 < (([] : List ValidationError) ++ vf k v spec).length) = true := by
            simpa using he
          simp [pass2, hl, hiso, he, hf, hlen]
      · have hvf : vf k v spec = [] := by
          simpa [List.length_eq_zero] using he
        have hstep : pass2 o schema vf ((k, v) :: rest) [] res =
            pass2 o schema vf rest []
              (setKey res k (storeValue o spec v)) := by
          simp [pass2, hl, hiso, he, storeValue]
        rw [hstep]
        rcases ih (setKey res k (storeValue o spec v)) with
          ⟨out, hout⟩ | ⟨k', v', hmem, hout⟩ | ⟨k', v', spec', hmem, hl', hne, hout⟩
        · exact Or.inl ⟨out, hout⟩
        · exact Or.inr (Or.inl ⟨k', v', List.mem_cons_of_mem _ hmem, hout⟩)
        · exact Or.inr (Or.inr ⟨k', v', spec', List.mem_cons_of_mem _ hmem, hl', hne, hout⟩)

end FirstModeLemmas

section FirstLeAll

theorem ruleErrors_first_le_all {oF oA : Options}
    (hF : oF.errorCollectionMode = .first) (hA : oA.errorCollectionMode = .all)
    (fieldName : String) (value : JValue) :
    ∀ rs : List ValidationRule,
    (ruleErrors oF fieldName value rs).length ≤
      (ruleErrors oA fieldName value rs).length ∧
    (ruleErrors oF fieldName value rs = [] ↔ ruleErrors oA fieldName value rs = []) := by
  intro rs
  induction rs with
  | nil => simp [ruleErrors]
  | cons rule rest ih =>
    by_cases hr : (!rule.validate value) = true
    · have hF' : (oF.errorCollectionMode == ErrorCollectionMode.first) = true := by
        simp [hF]
      have hA' : (oA.errorCollectionMode == ErrorCollectionMode.first) = false := by
        simp [hA]
      simp only [ruleErrors, hr, if_true, hF', hA', Bool.false_eq_true, if_false]
      constructor
      · simp only [List.length_cons, List.length_nil]
        omega
      · simp
    · simp only [ruleErrors, hr, Bool.false_eq_true, if_false]
      exact ih

theorem arrayItems_first_le_all {fieldName : String} {items : SchemaField}
    {vtopF vtopA : SchemaDefinition → JValue → ValidationResult}
    {vfF vfA : String → JValue → SchemaField → List ValidationError}
    (hvtop : ∀ l d, items.fields = some l →
      ((vtopF l d).errors.length ≤ (vtopA l d).errors.length ∧
        ((vtopF l d).errors = [] ↔ (vtopA l d).errors = [])) ∧
      ((vtopF l d).valid = true ↔ (vtopF l d).errors = []) ∧
      ((vtopA l d).valid = true ↔ (vtopA l d).errors = []))
    (hvf : ∀ fn it, (vfF fn it items).length ≤ (vfA fn it items).length ∧
      (vfF fn it items = [] ↔ vfA fn it items = [])) :
    ∀ (index : Nat) (elems : List JValue),
    (arrayItemsErrors fieldName items vtopF vfF index elems).length ≤
      (arrayItemsErrors fieldName items vtopA vfA index elems).length ∧
    (arrayItemsErrors fieldName items vtopF vfF index elems = [] ↔
      arrayItemsErrors fieldName items vtopA vfA index elems = []) := by
  intro index elems
  induction elems generalizing index with
  | nil => simp [arrayItemsErrors]
  | cons item rest ih =>
    simp only [arrayItemsErrors]
    have hitem : (arrayItemError vtopF vfF fieldName items index item).length ≤
        (arrayItemError vtopA vfA fieldName items index item).length ∧
        (arrayItemError vtopF vfF fieldName items index item = [] ↔
          arrayItemError vtopA vfA fieldName items index item = []) := by
      cases hty : (items.type == FieldType.object) with
      | false =>
        rw [arrayItemError_not_object (Or.inl hty),
          arrayItemError_not_object (Or.inl hty)]
        exact hvf _ item
      | true =>
        cases hfl : items.fields with
        | none =>
          rw [arrayItemError_not_object (Or.inr hfl),
            arrayItemError_not_object (Or.inr hfl)]
          exact hvf _ item
        | some itemFields =>
          obtain ⟨⟨hlen, hiff⟩, hinvF, hinvA⟩ := hvtop itemFields item hfl
          rw [arrayItemError_of_object hty hfl, arrayItemError_of_object hty hfl,
            map_prefix_of_invariant hinvF, map_prefix_of_invariant hinvA]
          constructor
          · simpa using hlen
          · rw [List.map_eq_nil_iff, List.map_eq_nil_iff]
            exact hiff
    constructor
    · simp only [List.length_append]
      exact Nat.add_le_add hitem.1 (ih (index + 1)).1
    · simp only [List.append_eq_nil]
      rw [hitem.2, (ih (index + 1)).2]

end FirstLeAll

section FirstLeAllMain

theorem pass2_first_le_all {te sm : Bool} {schema : SchemaDefinition}
    {vfF vfA : String → JValue → SchemaField → List ValidationError}
    (hvf : ∀ k v spec, lookupField schema k = some spec →
      (vfF k v spec).length ≤ (vfA k v spec).length ∧
      (vfF k v spec = [] ↔ vfA k v spec = [])) :
    ∀ (entries : List (String × JValue)) (resF : List (String × JValue)),
    (p2errs (pass2 ⟨te, sm, .first⟩ schema vfF entries [] resF)).length ≤
      (pass2ErrsAll ⟨te, sm, .all⟩ schema vfA entries).length ∧
    (p2errs (pass2 ⟨te, sm, .first⟩ schema vfF entries [] resF) = [] ↔
      pass2ErrsAll ⟨te, sm, .all⟩ schema vfA entries = []) := by
  intro entries
  induction entries with
  | nil => intro resF; simp [pass2, pass2ErrsAll, p2errs]
  | cons entry rest ih =>
    obtain ⟨k, v⟩ := entry
    intro resF
    cases hl : lookupField schema k with
    | none =>
      by_cases hst : sm = true
      · subst hst
        simp only [pass2, pass2ErrsAll, hl, Option.isNone_none, Bool.and_true, if_true,
          beq_self_eq_true, Bool.true_and, List.nil_append, List.length_cons,
          List.length_nil, Nat.zero_lt_succ, decide_eq_true_eq, p2errs]
        constructor
        · simp only [List.length_append, List.length_cons]
          omega
        · simp
      · simp only [Bool.not_eq_true] at hst
        subst hst
        simp only [pass2, pass2ErrsAll, hl, Option.isNone_none, Bool.and_true,
          Bool.false_and, Bool.false_eq_true, if_false, List.nil_append]
        exact ih _
    | some spec =>
      obtain ⟨hlen, hiff⟩ := hvf k v spec hl
      have hiso : ((⟨te, sm, .first⟩ : Options).strictMode &&
          (Option.some spec).isNone) = false := by simp
      have hisoA : ((⟨te, sm, .all⟩ : Options).strictMode &&
          (Option.some spec).isNone) = false := by simp
      by_cases he : vfF k v spec = []
      · have heA : vfA k v spec = [] := hiff.mp he
        have heF : decide (0 < (vfF k v spec).length) = false := by simp [he]
        simp only [pass2, pass2ErrsAll, hl, hiso, hisoA, Bool.false_eq_true, if_false,
          heF, heA, List.nil_append]
        exact ih _
      · have heF : decide (0 < (vfF k v spec).length) = true := by
          simp only [decide_eq_true_eq]
          cases hc : vfF k v spec with
          | nil => exact absurd hc he
          | cons a l => simp
        have heA : vfA k v spec ≠ [] := fun hh => he (hiff.mpr hh)
        simp only [pass2, pass2ErrsAll, hl, hiso, hisoA, Bool.false_eq_true, if_false,
          heF, if_true, List.nil_append, beq_self_eq_true, Bool.true_and]
        simp only [p2errs]
        constructor
        · simp only [List.length_append]
          omega
        · constructor
          · intro hh; exact absurd hh he
          · intro hh
            rw [List.append_eq_nil] at hh
            exact absurd hh.1 heA

theorem validateF_first_le_all : ∀ (n : Nat) (te sm : Bool),
    (∀ schema data,
      ((validateF n ⟨te, sm, .first⟩ schema data).errors).length ≤
        ((validateF n ⟨te, sm, .all⟩ schema data).errors).length ∧
      ((validateF n ⟨te, sm, .first⟩ schema data).errors = [] ↔
        (validateF n ⟨te, sm, .all⟩ schema data).errors = [])) ∧
    (∀ fieldName value spec,
      (validateFieldF n ⟨te, sm, .first⟩ fieldName value spec).length ≤
        (validateFieldF n ⟨te, sm, .all⟩ fieldName value spec).length ∧
      (validateFieldF n ⟨te, sm, .first⟩ fieldName value spec = [] ↔
        validateFieldF n ⟨te, sm, .all⟩ fieldName value spec = [])) := by
  intro n
  induction n with
  | zero =>
    intro te sm
    constructor
    · intro schema data
      simp [validateF]
    · intro fieldName value spec
      simp [validateFieldF]
  | succ n ih =>
    intro te sm
    have ihP := (ih te sm).1
    have ihQ := (ih te sm).2
    constructor
    · intro schema data
      show ((validateBody ⟨te, sm, .first⟩
            (fun fn v sp => validateFieldF n ⟨te, sm, .first⟩ fn v sp)
            schema data).errors).length ≤
          ((validateBody ⟨te, sm, .all⟩
            (fun fn v sp => validateFieldF n ⟨te, sm, .all⟩ fn v sp)
            schema data).errors).length ∧
        ((validateBody ⟨te, sm, .first⟩
            (fun fn v sp => validateFieldF n ⟨te, sm, .first⟩ fn v sp)
            schema data).errors = [] ↔
          (validateBody ⟨te, sm, .all⟩
            (fun fn v sp => validateFieldF n ⟨te, sm, .all⟩ fn v sp)
            schema data).errors = [])
      unfold validateBody
      cases hfm : firstMissingRequired data schema with
      | some name =>
        have hne := firstMissingRequired_some_reqList hfm
        have hpos : 0 < (reqList data schema).length := List.length_pos.mpr hne
        simp only [@requiredPass_first_some ⟨te, sm, .first⟩ rfl data schema name hfm,
          @requiredPass_all ⟨te, sm, .all⟩ rfl data schema,
          @pass2_all ⟨te, sm, .all⟩ rfl schema
            (fun fn v sp => validateFieldF n ⟨te, sm, .all⟩ fn v sp),
          List.nil_append]
        constructor
        · simp only [List.length_append, List.length_cons, List.length_nil]
          omega
        · constructor
          · intro hh; cases hh
          · intro hh
            rw [List.append_eq_nil] at hh
            exact absurd hh.1 hne
      | none =>
        have hreqnil := firstMissingRequired_none_reqList hfm
        simp only [requiredPass_none ⟨te, sm, .first⟩ data schema hfm,
          requiredPass_none ⟨te, sm, .all⟩ data schema hfm,
          @pass2_all ⟨te, sm, .all⟩ rfl schema
            (fun fn v sp => validateFieldF n ⟨te, sm, .all⟩ fn v sp),
          List.nil_append]
        have hcmp := @pass2_first_le_all te sm schema
          (fun fn v sp => validateFieldF n ⟨te, sm, .first⟩ fn v sp)
          (fun fn v sp => validateFieldF n ⟨te, sm, .all⟩ fn v sp)
          (fun k v spec _ => ihQ k v spec) data.entriesOf ([] : List (String × JValue))
        rcases hp : pass2 ⟨te, sm, .first⟩ schema
            (fun fn v sp => validateFieldF n ⟨te, sm, .first⟩ fn v sp)
            data.entriesOf [] [] with l | p
        · rw [hp] at hcmp
          simp only [p2errs] at hcmp
          simpa using hcmp
        · obtain ⟨errors2, result⟩ := p
          rw [hp] at hcmp
          simp only [p2errs] at hcmp
          simpa using hcmp
    · intro fieldName value spec
      show ((validateFieldBody ⟨te, sm, .first⟩
            (fun s d => validateF n ⟨te, sm, .first⟩ s d)
            (fun fn v sp => validateFieldF n ⟨te, sm, .first⟩ fn v sp)
            fieldName value spec).length ≤
          (validateFieldBody ⟨te, sm, .all⟩
            (fun s d => validateF n ⟨te, sm, .all⟩ s d)
            (fun fn v sp => validateFieldF n ⟨te, sm, .all⟩ fn v sp)
            fieldName value spec).length) ∧
        (validateFieldBody ⟨te, sm, .first⟩
            (fun s d => validateF n ⟨te, sm, .first⟩ s d)
            (fun fn v sp => validateFieldF n ⟨te, sm, .first⟩ fn v sp)
            fieldName value spec = [] ↔
          validateFieldBody ⟨te, sm, .all⟩
            (fun s d => validateF n ⟨te, sm, .all⟩ s d)
            (fun fn v sp => validateFieldF n ⟨te, sm, .all⟩ fn v sp)
            fieldName value spec = [])
      unfold validateFieldBody
      by_cases h1 : isNull value = true
      · simp [h1]
      · simp only [h1, Bool.false_eq_true, if_false]
        by_cases h2 : (isUndef value && !spec.required) = true
        · simp [h2]
        · simp only [h2, Bool.false_eq_true, if_false]
          by_cases h3 : (!validateType value spec) = true
          · simp [h3]
          · simp only [h3, Bool.false_eq_true, if_false]
            have hobj : (nestedObjectErrors
                  (fun s d => validateF n ⟨te, sm, .first⟩ s d)
                  fieldName value spec).length ≤
                (nestedObjectErrors (fun s d => validateF n ⟨te, sm, .all⟩ s d)
                  fieldName value spec).length ∧
                (nestedObjectErrors (fun s d => validateF n ⟨te, sm, .first⟩ s d)
                  fieldName value spec = [] ↔
                  nestedObjectErrors (fun s d => validateF n ⟨te, sm, .all⟩ s d)
                    fieldName value spec = []) := by
              cases hfl : spec.fields with
              | none =>
                rw [nestedObjectErrors_of_none hfl, nestedObjectErrors_of_none hfl]
                simp
              | some nestedSchema =>
                rw [nestedObjectErrors_of_some hfl, nestedObjectErrors_of_some hfl]
                by_cases hc : (spec.type == FieldType.object && typeofIsObject value) = true
                · simp only [hc, if_true]
                  rw [map_prefix_of_invariant
                      (validateF_valid_iff n ⟨te, sm, .first⟩ nestedSchema value).1,
                    map_prefix_of_invariant
                      (validateF_valid_iff n ⟨te, sm, .all⟩ nestedSchema value).1]
                  constructor
                  · simpa using (ihP nestedSchema value).1
                  · rw [List.map_eq_nil_iff, List.map_eq_nil_iff]
                    exact (ihP nestedSchema value).2
                · simp [hc]
            have harr : (nestedArrayErrors
                  (fun s d => validateF n ⟨te, sm, .first⟩ s d)
                  (fun fn v sp => validateFieldF n ⟨te, sm, .first⟩ fn v sp)
                  fieldName value spec).length ≤
                (nestedArrayErrors (fun s d => validateF n ⟨te, sm, .all⟩ s d)
                  (fun fn v sp => validateFieldF n ⟨te, sm, .all⟩ fn v sp)
                  fieldName value spec).length ∧
                (nestedArrayErrors (fun s d => validateF n ⟨te, sm, .first⟩ s d)
                  (fun fn v sp => validateFieldF n ⟨te, sm, .first⟩ fn v sp)
                  fieldName value spec = [] ↔
                  nestedArrayErrors (fun s d => validateF n ⟨te, sm, .all⟩ s d)
                    (fun fn v sp => validateFieldF n ⟨te, sm, .all⟩ fn v sp)
                    fieldName value spec = []) := by
              cases hit : spec.items with
              | none =>
                rw [nestedArrayErrors_of_none hit, nestedArrayErrors_of_none hit]
                simp
              | some itemsSpec =>
                cases value
                case arr elems =>
                  rw [nestedArrayErrors_of_some_arr hit, nestedArrayErrors_of_some_arr hit]
                  by_cases hty : (spec.type == FieldType.array) = true
                  · simp only [hty, if_true]
                    refine arrayItems_first_le_all ?_ ?_ 0 elems
                    · intro l d _
                      exact ⟨⟨(ihP l d).1, (ihP l d).2⟩,
                        (validateF_valid_iff n ⟨te, sm, .first⟩ l d).1,
                        (validateF_valid_iff n ⟨te, sm, .all⟩ l d).1⟩
                    · intro fn it
                      exact ihQ fn it itemsSpec
                  · simp [hty]
                all_goals
                  rw [nestedArrayErrors_of_not_arr _ _ _ (by rfl),
                    nestedArrayErrors_of_not_arr _ _ _ (by rfl)]
                  simp
            have hrule := @ruleErrors_first_le_all ⟨te, sm, .first⟩
              ⟨te, sm, .all⟩ rfl rfl fieldName value spec.rules
            constructor
            · simp only [List.length_append]
              exact Nat.add_le_add (Nat.add_le_add hobj.1 harr.1) hrule.1
            · simp only [List.append_eq_nil]
              rw [hobj.2, harr.2, hrule.2]

end FirstLeAllMain

/-- C2 counterexample: the claim says "first" mode yields exactly 1 error for
the very first field-level failure and truncates the overall accumulation the
moment any single error is produced; in this "first"-mode run a single field
(an object with a failing nested required field and a failing own rule)
produces 2 errors, because `validateField` does not stop between its
nested-recursion block and its rule-chain block. -/
theorem first_mode_two_errors_counterexample :
    validate ⟨true, false, .first⟩ schemaTwoErr (.obj [("f", .obj [])]) =
      ⟨false, [⟨"f.x", requiredMsg "x", .undef⟩, ⟨"f", "f custom fail", .obj []⟩],
        none⟩ := rfl

/-- C2 amended: in "first" mode, the returned error list is empty, or a
single immediate-return error (missing-required or unknown-field), or exactly
the full `validateField` output of the first data key whose field validation
fails — which can contain more than one error, since the nested-object
recursion, nested-array recursion and rule chain of one field are not
truncated against each other; and for the same schema and input the
"all"-mode error list is at least as long as the "first"-mode list. -/
theorem first_mode_error_truncation_amended :
    (∀ (opts : Options) (schema : SchemaDefinition) (data : JValue),
      opts.errorCollectionMode = .first →
      (validate opts schema data).errors = [] ∨
      (∃ e, (validate opts schema data).errors = [e]) ∨
      (∃ k v spec, (k, v) ∈ data.entriesOf ∧ lookupField schema k = some spec ∧
        validateField opts k v spec ≠ [] ∧
        (validate opts schema data).errors = validateField opts k v spec)) ∧
    (∀ (te sm : Bool) (schema : SchemaDefinition) (data : JValue),
      ((validate ⟨te, sm, .first⟩ schema data).errors).length ≤
        ((validate ⟨te, sm, .all⟩ schema data).errors).length) := by
  constructor
  · intro opts schema data hmode
    have hv : validate opts schema data =
        validateF (schemaSize schema + 1) opts schema data := rfl
    rw [hv]
    simp only [validateF, validateBody]
    cases hfm : firstMissingRequired data schema with
    | some name =>
      refine Or.inr (Or.inl ⟨⟨name, requiredMsg name, .undef⟩, ?_⟩)
      simp [@requiredPass_first_some opts hmode data schema name hfm]
    | none =>
      rcases pass2_first_cases hmode schema
          (fun fn v sp => validateFieldF (schemaSize schema) opts fn v sp)
          data.entriesOf [] with
        ⟨out, hout⟩ | ⟨k, v, hmem, hout⟩ | ⟨k, v, spec, hmem, hl, hne, hout⟩
      · left
        simp [requiredPass_none opts data schema hfm, hout]
      · refine Or.inr (Or.inl ⟨⟨k, unknownMsg k, v⟩, ?_⟩)
        simp [requiredPass_none opts data schema hfm, hout]
      · have hsz := lookupField_size hl
        have heq : validateField opts k v spec =
            validateFieldF (schemaSize schema) opts k v spec :=
          @validateField_eq_validateFieldF (schemaSize schema) opts k v spec (by omega)
        refine Or.inr (Or.inr ⟨k, v, spec, hmem, hl, ?_, ?_⟩)
        · rw [heq]
          exact hne
        · rw [heq]
          simp [requiredPass_none opts data schema hfm, hout]
  · intro te sm schema data
    exact ((validateF_first_le_all (schemaSize schema + 1) te sm).1 schema data).1

/-- C2 amended witness: the amended characterisation applied to the
two-error "first"-mode run, and the length comparison at the same input. -/
theorem first_mode_truncation_witness :
    (⟨true, false, .first⟩ : Options).errorCollectionMode = .first ∧
    ((validate ⟨true, false, .first⟩ schemaTwoErr (.obj [("f", .obj [])])).errors = [] ∨
      (∃ e, (validate ⟨true, false, .first⟩ schemaTwoErr
        (.obj [("f", .obj [])])).errors = [e]) ∨
      (∃ k v spec, (k, v) ∈ (JValue.obj [("f", .obj [])]).entriesOf ∧
        lookupField schemaTwoErr k = some spec ∧
        validateField ⟨true, false, .first⟩ k v spec ≠ [] ∧
        (validate ⟨true, false, .first⟩ schemaTwoErr
          (.obj [("f", .obj [])])).errors =
          validateField ⟨true, false, .first⟩ k v spec)) ∧
    ((validate ⟨true, false, .first⟩ schemaTwoErr (.obj [("f", .obj [])])).errors.length ≤
      (validate ⟨true, false, .all⟩ schemaTwoErr (.obj [("f", .obj [])])).errors.length) :=
  ⟨rfl,
    first_mode_error_truncation_amended.1 ⟨true, false, .first⟩ schemaTwoErr
      (.obj [("f", .obj [])]) rfl,
    first_mode_error_truncation_amended.2 true false schemaTwoErr
      (.obj [("f", .obj [])])⟩

section IdempotenceLemmas

theorem plainField_transform_none {f : SchemaField} (h : plainField f = true) :
    f.transform = none := by
  cases f with
  | mk t r nl rs tr df fl it =>
    simp only [plainField, Bool.and_eq_true, Option.isNone_iff_eq_none] at h
    exact h.1.1.1

theorem plainField_default_none {f : SchemaField} (h : plainField f = true) :
    f.default? = none := by
  cases f with
  | mk t r nl rs tr df fl it =>
    simp only [plainField, Bool.and_eq_true, Option.isNone_iff_eq_none] at h
    exact h.1.1.2

theorem plainSchema_mem {schema : SchemaDefinition} {k : String} {f : SchemaField}
    (h : plainSchema schema = true) (hmem : (k, f) ∈ schema) : plainField f = true := by
  induction schema with
  | nil => cases hmem
  | cons entry rest ih =>
    obtain ⟨k0, f0⟩ := entry
    simp only [plainSchema, Bool.and_eq_true] at h
    rcases List.mem_cons.mp hmem with hhead | htail
    · have : f0 = f := by cases hhead; rfl
      exact this ▸ h.1
    · exact ih h.2 htail

theorem applyDefaults_plain {schema : SchemaDefinition}
    (h : plainSchema schema = true) :
    ∀ res, applyDefaults schema res = res := by
  induction schema with
  | nil => intro res; rfl
  | cons entry rest ih =>
    obtain ⟨k, f⟩ := entry
    intro res
    simp only [plainSchema, Bool.and_eq_true] at h
    have hdf : f.default? = none := plainField_default_none h.1
    simp only [applyDefaults, hdf, defaultIsDefined, Bool.and_false,
      Bool.false_eq_true, if_false]
    exact ih h.2 res

theorem getKey_entriesOf (data : JValue) (name : String) :
    data.getKey name = objGetKey data.entriesOf name := by
  cases data <;> rfl

theorem lookup_of_mem_nodup {schema : SchemaDefinition} {k : String} {f : SchemaField}
    (hnd : (schemaKeys schema).Nodup) (hmem : (k, f) ∈ schema) :
    lookupField schema k = some f := by
  induction schema with
  | nil => cases hmem
  | cons entry rest ih =>
    obtain ⟨k0, f0⟩ := entry
    simp only [schemaKeys, List.map_cons, List.nodup_cons] at hnd
    rcases List.mem_cons.mp hmem with hhead | htail
    · have hk : k0 = k := by cases hhead; rfl
      have hf : f0 = f := by cases hhead; rfl
      subst hk
      subst hf
      simp [lookupField]
    · have hk0 : k0 ≠ k := by
        intro hh
        exact hnd.1 (hh ▸ List.mem_map_of_mem Prod.fst htail)
      have hk0' : (k0 == k) = false := by
        simp [beq_eq_string]
        exact hk0
      simp only [lookupField, hk0', Bool.false_eq_true, if_false]
      exact ih (by simpa [schemaKeys] using hnd.2) htail

theorem requiredPass_prefix (o : Options) (data : JValue) :
    ∀ (schema : SchemaDefinition) (errs : List ValidationError),
    errs <+: reqOut (requiredPass o data schema errs) := by
  intro schema
  induction schema with
  | nil => intro errs; exact List.prefix_rfl
  | cons entry rest ih =>
    obtain ⟨k, f⟩ := entry
    intro errs
    by_cases hm : missingRequired data k f
    · by_cases hf : (o.errorCollectionMode == ErrorCollectionMode.first &&
          decide (0 < (errs ++
            [ValidationError.mk k (requiredMsg k) JValue.undef]).length)) = true
      · simp only [requiredPass, hm, if_true, hf, reqOut]
        exact List.prefix_append errs _
      · simp only [requiredPass, hm, if_true, hf, Bool.false_eq_true, if_false]
        exact List.IsPrefix.trans (List.prefix_append errs _) (ih _)
    · simp only [requiredPass, hm, Bool.false_eq_true, if_false]
      exact ih _

theorem requiredPass_inr_nil {o : Options} {data : JValue} :
    ∀ {schema : SchemaDefinition},
    requiredPass o data schema [] = .inr [] →
    firstMissingRequired data schema = none := by
  intro schema
  induction schema with
  | nil => intro _; rfl
  | cons entry rest ih =>
    obtain ⟨k, f⟩ := entry
    intro h
    by_cases hm : missingRequired data k f
    · exfalso
      by_cases hf : (o.errorCollectionMode == ErrorCollectionMode.first &&
          decide (0 < (([] : List ValidationError) ++
            [ValidationError.mk k (requiredMsg k) JValue.undef]).length)) = true
      · have hmode : o.errorCollectionMode = ErrorCollectionMode.first := by
          simpa using hf
        simp [requiredPass, hm, hmode] at h
      · simp only [requiredPass, hm, if_true, hf, Bool.false_eq_true, if_false] at h
        have hpre := requiredPass_prefix o data rest
          (([] : List ValidationError) ++
            [ValidationError.mk k (requiredMsg k) JValue.undef])
        rw [h] at hpre
        simp only [reqOut, List.nil_append] at hpre
        have := hpre.length_le
        simp at this
    · simp only [requiredPass, hm, Bool.false_eq_true, if_false] at h
      simp only [firstMissingRequired, hm, Bool.false_eq_true, if_false]
      exact ih h

theorem firstMissingRequired_none_missing {data : JValue} :
    ∀ {schema : SchemaDefinition}, firstMissingRequired data schema = none →
    ∀ {name : String} {f : SchemaField}, (name, f) ∈ schema →
    missingRequired data name f = false := by
  intro schema
  induction schema with
  | nil => intro _ _ _ hmem; cases hmem
  | cons entry rest ih =>
    obtain ⟨k0, f0⟩ := entry
    intro h name f hmem
    by_cases hm : missingRequired data k0 f0
    · simp [firstMissingRequired, hm] at h
    · simp only [firstMissingRequired, hm, Bool.false_eq_true, if_false] at h
      rcases List.mem_cons.mp hmem with hhead | htail
      · have hk : k0 = name := by cases hhead; rfl
        have hf : f0 = f := by cases hhead; rfl
        subst hk
        subst hf
        simpa using hm
      · exact ih h htail

theorem firstMissingRequired_none_of_all {data' : JValue} :
    ∀ {schema : SchemaDefinition},
    (∀ name f, (name, f) ∈ schema → missingRequired data' name f = false) →
    firstMissingRequired data' schema = none := by
  intro schema
  induction schema with
  | nil => intro _; rfl
  | cons entry rest ih =>
    obtain ⟨k, f⟩ := entry
    intro h
    have hm := h k f (List.mem_cons_self _ _)
    simp only [firstMissingRequired, hm, Bool.false_eq_true, if_false]
    exact ih (fun name f' hmem => h name f' (List.mem_cons_of_mem _ hmem))

theorem setKey_fresh {res : List (String × JValue)} {k : String}
    (h : k ∉ res.map Prod.fst) (v : JValue) : setKey res k v = res ++ [(k, v)] := by
  induction res with
  | nil => rfl
  | cons entry rest ih =>
    obtain ⟨k0, w⟩ := entry
    simp only [List.map_cons, List.mem_cons, not_or] at h
    have hk0 : (k0 == k) = false := by
      simp [beq_eq_string]
      exact fun hh => h.1 hh.symm
    simp only [setKey, hk0, Bool.false_eq_true, if_false, List.cons_append,
      List.cons.injEq, true_and]
    exact ih h.2

theorem storeValue_te_false {o : Options} (h : o.transformEnabled = false)
    (spec : SchemaField) (v : JValue) : storeValue o spec v = v := by
  unfold storeValue
  rw [h]

end IdempotenceLemmas

section Pass2Success

theorem pass2_inr_same_errs {o : Options} {schema : SchemaDefinition}
    {vf : String → JValue → SchemaField → List ValidationError} :
    ∀ (entries : List (String × JValue)) (errs : List ValidationError)
      (res out : List (String × JValue)),
    pass2 o schema vf entries errs res = .inr (errs, out) →
    ∀ k v, (k, v) ∈ entries →
    ((lookupField schema k = none → o.strictMode = false) ∧
     (∀ spec, lookupField schema k = some spec → vf k v spec = [])) := by
  intro entries
  induction entries with
  | nil => intro errs res out _ k v hmem; cases hmem
  | cons entry rest ih =>
    obtain ⟨k0, v0⟩ := entry
    intro errs res out h k v hmem
    cases hl0 : lookupField schema k0 with
    | none =>
      by_cases hst : o.strictMode = true
      · exfalso
        by_cases hf : o.errorCollectionMode = ErrorCollectionMode.first
        · simp [pass2, hl0, hst, hf] at h
        · have hf' : (o.errorCollectionMode == ErrorCollectionMode.first) = false := by
            simp [hf]
          simp only [pass2, hl0, hst, Option.isNone_none, Bool.and_true, if_true, hf',
            Bool.false_and, Bool.false_eq_true, if_false] at h
          have hpre := pass2_errs_isPrefix o schema vf rest
            (errs ++ [⟨k0, unknownMsg k0, v0⟩]) res
          rw [h] at hpre
          simp only [p2errs] at hpre
          have := hpre.length_le
          simp at this
      · simp only [Bool.not_eq_true] at hst
        simp only [pass2, hl0, hst, Option.isNone_none, Bool.and_true, Bool.false_and,
          Bool.false_eq_true, if_false] at h
        rcases List.mem_cons.mp hmem with hhead | htail
        · have hk : k0 = k := by cases hhead; rfl
          subst hk
          refine ⟨fun _ => hst, fun spec hspec => ?_⟩
          rw [hspec] at hl0
          cases hl0
        · exact ih errs _ out h k v htail
    | some spec0 =>
      have hiso : (o.strictMode && (Option.some spec0).isNone) = false := by simp
      by_cases he : decide (0 < (vf k0 v0 spec0).length) = true
      · exfalso
        by_cases hf : o.errorCollectionMode = ErrorCollectionMode.first
        · have hlen : decide (0 < (errs ++ vf k0 v0 spec0).length) = true := by
            simp only [decide_eq_true_eq] at he ⊢
            simp [List.length_append]
            omega
          simp [pass2, hl0, hiso, he, hf, hlen] at h
        · have hf' : (o.errorCollectionMode == ErrorCollectionMode.first) = false := by
            simp [hf]
          simp only [pass2, hl0, hiso, Bool.false_eq_true, if_false, he, if_true, hf',
            Bool.false_and] at h
          have hpre := pass2_errs_isPrefix o schema vf rest (errs ++ vf k0 v0 spec0) res
          rw [h] at hpre
          simp only [p2errs] at hpre
          have hle := hpre.length_le
          simp only [decide_eq_true_eq] at he
          simp only [List.length_append] at hle
          omega
      · simp only [pass2, hl0, hiso, Bool.false_eq_true, if_false, he] at h
        rcases List.mem_cons.mp hmem with hhead | htail
        · have hk : k0 = k := by cases hhead; rfl
          have hv : v0 = v := by cases hhead; rfl
          subst hk
          subst hv
          refine ⟨fun hnone => ?_, fun spec hspec => ?_⟩
          · rw [hnone] at hl0
            cases hl0
          · rw [hspec] at hl0
            have hs : spec0 = spec := by cases hl0; rfl
            subst hs
            simpa [List.length_eq_zero] using he
        · exact ih errs _ out h k v htail

theorem pass2_inr_result {o : Options} {schema : SchemaDefinition}
    {vf : String → JValue → SchemaField → List ValidationError} :
    ∀ (entries : List (String × JValue)) (errs : List ValidationError)
      (res : List (String × JValue)) (e : List ValidationError)
      (out : List (String × JValue)),
    pass2 o schema vf entries errs res = .inr (e, out) →
    (∀ k, k ∈ entries.map Prod.fst → k ∉ res.map Prod.fst) →
    (entries.map Prod.fst).Nodup →
    out = res ++ pass2Stores o schema vf entries := by
  intro entries
  induction entries with
  | nil =>
    intro errs res e out h _ _
    simp only [pass2, Sum.inr.injEq, Prod.mk.injEq] at h
    simp [pass2Stores, ← h.2]
  | cons entry rest ih =>
    obtain ⟨k0, v0⟩ := entry
    intro errs res e out h hfresh hnd
    simp only [List.map_cons, List.nodup_cons] at hnd
    have hfresh0 : k0 ∉ res.map Prod.fst :=
      hfresh k0 (by simp)
    have hfreshrest : ∀ k, k ∈ rest.map Prod.fst → k ∉ res.map Prod.fst :=
      fun k hk => hfresh k (by simp [hk])
    cases hl0 : lookupField schema k0 with
    | none =>
      by_cases hst : o.strictMode = true
      · by_cases hf : o.errorCollectionMode = ErrorCollectionMode.first
        · simp [pass2, hl0, hst, hf] at h
        · have hf' : (o.errorCollectionMode == ErrorCollectionMode.first) = false := by
            simp [hf]
          simp only [pass2, hl0, hst, Option.isNone_none, Bool.and_true, if_true, hf',
            Bool.false_and, Bool.false_eq_true, if_false] at h
          rw [ih _ _ _ _ h hfreshrest hnd.2]
          simp [pass2Stores, hl0, hst]
      · simp only [Bool.not_eq_true] at hst
        simp only [pass2, hl0, hst, Option.isNone_none, Bool.and_true, Bool.false_and,
          Bool.false_eq_true, if_false] at h
        have hfresh' : ∀ k, k ∈ rest.map Prod.fst →
            k ∉ (setKey res k0 v0).map Prod.fst := by
          intro k hk
          rw [setKey_fresh hfresh0]
          simp only [List.map_append, List.mem_append, not_or]
          refine ⟨hfreshrest k hk, ?_⟩
          simp only [List.map_cons, List.map_nil, List.mem_singleton]
          intro hh
          exact hnd.1 (hh ▸ hk)
        rw [ih _ _ _ _ h hfresh' hnd.2, setKey_fresh hfresh0]
        simp [pass2Stores, hl0, hst]
    | some spec0 =>
      have hiso : (o.strictMode && (Option.some spec0).isNone) = false := by simp
      by_cases he : decide (0 < (vf k0 v0 spec0).length) = true
      · by_cases hf : o.errorCollectionMode = ErrorCollectionMode.first
        · have hlen : decide (0 < (errs ++ vf k0 v0 spec0).length) = true := by
            simp only [decide_eq_true_eq] at he ⊢
            simp [List.length_append]
            omega
          simp [pass2, hl0, hiso, he, hf, hlen] at h
        · have hf' : (o.errorCollectionMode == ErrorCollectionMode.first) = false := by
            simp [hf]
          simp only [pass2, hl0, hiso, Bool.false_eq_true, if_false, he, if_true, hf',
            Bool.false_and] at h
          rw [ih _ _ _ _ h hfreshrest hnd.2]
          simp [pass2Stores, hl0, he]
      · simp only [pass2, hl0, hiso, Bool.false_eq_true, if_false, he] at h
        have hfresh' : ∀ k, k ∈ rest.map Prod.fst →
            k ∉ (setKey res k0 (storeValue o spec0 v0)).map Prod.fst := by
          intro k hk
          rw [setKey_fresh hfresh0]
          simp only [List.map_append, List.mem_append, not_or]
          refine ⟨hfreshrest k hk, ?_⟩
          simp only [List.map_cons, List.map_nil, List.mem_singleton]
          intro hh
          exact hnd.1 (hh ▸ hk)
        rw [ih _ _ _ _ h hfresh' hnd.2, setKey_fresh hfresh0]
        have hsv : (match o.transformEnabled, spec0.transform with
            | true, some tr => tr v0
            | _, _ => v0) = storeValue o spec0 v0 := rfl
        rw [hsv]
        simp [pass2Stores, hl0, he]

theorem pass2Stores_mem {o : Options} {schema : SchemaDefinition}
    {vf : String → JValue → SchemaField → List ValidationError} :
    ∀ {entries : List (String × JValue)} {k : String} {w : JValue},
    (k, w) ∈ pass2Stores o schema vf entries →
    ∃ v, (k, v) ∈ entries ∧
      ((lookupField schema k = none ∧ w = v) ∨
       (∃ spec, lookupField schema k = some spec ∧ vf k v spec = [] ∧
         w = storeValue o spec v)) := by
  intro entries
  induction entries with
  | nil => intro k w hmem; cases hmem
  | cons entry rest ih =>
    obtain ⟨k0, v0⟩ := entry
    intro k w hmem
    cases hl0 : lookupField schema k0 with
    | none =>
      by_cases hst : o.strictMode = true
      · rw [show pass2Stores o schema vf ((k0, v0) :: rest) =
            pass2Stores o schema vf rest by simp [pass2Stores, hl0, hst]] at hmem
        obtain ⟨v, hv, hcase⟩ := ih hmem
        exact ⟨v, List.mem_cons_of_mem _ hv, hcase⟩
      · simp only [Bool.not_eq_true] at hst
        rw [show pass2Stores o schema vf ((k0, v0) :: rest) =
            (k0, v0) :: pass2Stores o schema vf rest by
          simp [pass2Stores, hl0, hst]] at hmem
        rcases List.mem_cons.mp hmem with hhead | htail
        · have hk : k0 = k := by cases hhead; rfl
          have hw : v0 = w := by cases hhead; rfl
          subst hk
          exact ⟨v0, List.mem_cons_self _ _, Or.inl ⟨hl0, hw.symm⟩⟩
        · obtain ⟨v, hv, hcase⟩ := ih htail
          exact ⟨v, List.mem_cons_of_mem _ hv, hcase⟩
    | some spec0 =>
      have hiso : (o.strictMode && (Option.some spec0).isNone) = false := by simp
      by_cases he : decide (0 < (vf k0 v0 spec0).length) = true
      · rw [show pass2Stores o schema vf ((k0, v0) :: rest) =
            pass2Stores o schema vf rest by simp [pass2Stores, hl0, hiso, he]] at hmem
        obtain ⟨v, hv, hcase⟩ := ih hmem
        exact ⟨v, List.mem_cons_of_mem _ hv, hcase⟩
      · rw [show pass2Stores o schema vf ((k0, v0) :: rest) =
            (k0, storeValue o spec0 v0) :: pass2Stores o schema vf rest by
          simp [pass2Stores, hl0, hiso, he]] at hmem
        rcases List.mem_cons.mp hmem with hhead | htail
        · have hk : k0 = k := by cases hhead; rfl
          have hw : storeValue o spec0 v0 = w := by cases hhead; rfl
          subst hk
          refine ⟨v0, List.mem_cons_self _ _, Or.inr ⟨spec0, hl0, ?_, hw.symm⟩⟩
          simpa [List.length_eq_zero] using he
        · obtain ⟨v, hv, hcase⟩ := ih htail
          exact ⟨v, List.mem_cons_of_mem _ hv, hcase⟩

theorem pass2Stores_keys_sublist {o : Options} {schema : SchemaDefinition}
    {vf : String → JValue → SchemaField → List ValidationError} :
    ∀ entries : List (String × JValue),
    List.Sublist ((pass2Stores o schema vf entries).map Prod.fst)
      (entries.map Prod.fst) := by
  intro entries
  induction entries with
  | nil => simp [pass2Stores]
  | cons entry rest ih =>
    obtain ⟨k0, v0⟩ := entry
    cases hl0 : lookupField schema k0 with
    | none =>
      by_cases hst : o.strictMode = true
      · rw [show pass2Stores o schema vf ((k0, v0) :: rest) =
            pass2Stores o schema vf rest by simp [pass2Stores, hl0, hst]]
        exact List.Sublist.trans ih (List.sublist_cons_self _ _)
      · simp only [Bool.not_eq_true] at hst
        rw [show pass2Stores o schema vf ((k0, v0) :: rest) =
            (k0, v0) :: pass2Stores o schema vf rest by simp [pass2Stores, hl0, hst]]
        simpa using List.Sublist.cons₂ k0 ih
    | some spec0 =>
      have hiso : (o.strictMode && (Option.some spec0).isNone) = false := by simp
      by_cases he : decide (0 < (vf k0 v0 spec0).length) = true
      · rw [show pass2Stores o schema vf ((k0, v0) :: rest) =
            pass2Stores o schema vf rest by simp [pass2Stores, hl0, hiso, he]]
        exact List.Sublist.trans ih (List.sublist_cons_self _ _)
      · rw [show pass2Stores o schema vf ((k0, v0) :: rest) =
            (k0, storeValue o spec0 v0) :: pass2Stores o schema vf rest by
          simp [pass2Stores, hl0, hiso, he]]
        simpa using List.Sublist.cons₂ k0 ih

theorem pass2_rebuild {o : Options} {schema : SchemaDefinition}
    {vf : String → JValue → SchemaField → List ValidationError}
    (hte : o.transformEnabled = false) :
    ∀ (entries : List (String × JValue)),
    (entries.map Prod.fst).Nodup →
    (∀ k w, (k, w) ∈ entries →
      (lookupField schema k = none ∧ o.strictMode = false) ∨
      (∃ spec, lookupField schema k = some spec ∧ vf k w spec = [])) →
    ∀ res, (∀ k, k ∈ entries.map Prod.fst → k ∉ res.map Prod.fst) →
    pass2 o schema vf entries [] res = .inr ([], res ++ entries) := by
  intro entries
  induction entries with
  | nil => intro _ _ res _; simp [pass2]
  | cons entry rest ih =>
    obtain ⟨k0, v0⟩ := entry
    intro hnd hprops res hfresh
    simp only [List.map_cons, List.nodup_cons] at hnd
    have hfresh0 : k0 ∉ res.map Prod.fst := hfresh k0 (by simp)
    have hfresh' : ∀ k, k ∈ rest.map Prod.fst →
        k ∉ (setKey res k0 v0).map Prod.fst := by
      intro k hk
      rw [setKey_fresh hfresh0]
      simp only [List.map_append, List.mem_append, not_or]
      refine ⟨fun hmem => hfresh k (by simp [hk]) hmem, ?_⟩
      simp only [List.map_cons, List.map_nil, List.mem_singleton]
      intro hh
      exact hnd.1 (hh ▸ hk)
    have hprops' : ∀ k w, (k, w) ∈ rest →
        (lookupField schema k = none ∧ o.strictMode = false) ∨
        (∃ spec, lookupField schema k = some spec ∧ vf k w spec = []) :=
      fun k w hmem => hprops k w (List.mem_cons_of_mem _ hmem)
    rcases hprops k0 v0 (List.mem_cons_self _ _) with ⟨hl0, hst⟩ | ⟨spec0, hl0, hvf0⟩
    · simp only [pass2, hl0, hst, Option.isNone_none, Bool.and_true, Bool.false_and,
        Bool.false_eq_true, if_false]
      rw [ih hnd.2 hprops' (setKey res k0 v0) hfresh', setKey_fresh hfresh0]
      simp
    · have hiso : (o.strictMode && (Option.some spec0).isNone) = false := by simp
      have he : decide (0 < (vf k0 v0 spec0).length) = false := by simp [hvf0]
      simp only [pass2, hl0, hiso, Bool.false_eq_true, if_false, he]
      have hsv : (match o.transformEnabled, spec0.transform with
          | true, some tr => tr v0
          | _, _ => v0) = storeValue o spec0 v0 := rfl
      rw [hsv, storeValue_te_false hte]
      have hfresh'' : ∀ k, k ∈ rest.map Prod.fst →
          k ∉ (setKey res k0 v0).map Prod.fst := hfresh'
      rw [ih hnd.2 hprops' (setKey res k0 v0) hfresh'', setKey_fresh hfresh0]
      simp

end Pass2Success

theorem lookupField_mem {schema : SchemaDefinition} {k : String} {spec : SchemaField}
    (h : lookupField schema k = some spec) : (k, spec) ∈ schema := by
  induction schema with
  | nil => cases h
  | cons entry rest ih =>
    obtain ⟨k0, f0⟩ := entry
    by_cases hk : (k0 == k) = true
    · have hkn : k0 = k := beq_eq_string.mp hk
      subst hkn
      simp only [lookupField, hk, if_true, Option.some.injEq] at h
      subst h
      exact List.mem_cons_self _ _
    · simp only [lookupField, hk, Bool.false_eq_true, if_false] at h
      exact List.mem_cons_of_mem _ (ih h)

/-- C9: Idempotence on success: for every schema without transforms or
defaults (so that they cannot reintroduce violations) with distinct field
names, and every input object, if `validate` succeeds then validating the
returned `data` output again against the same schema with transforms disabled
yields `valid = true` with an empty error list. -/
theorem validate_idempotent_on_success :
    ∀ (opts : Options) (schema : SchemaDefinition) (data : JValue) (out : JValue),
    plainSchema schema = true →
    (schemaKeys schema).Nodup →
    (objKeys data).Nodup →
    (validate opts schema data).valid = true →
    (validate opts schema data).data = some out →
    (validate ⟨false, opts.strictMode, opts.errorCollectionMode⟩ schema out).valid
        = true ∧
    (validate ⟨false, opts.strictMode, opts.errorCollectionMode⟩ schema out).errors
        = [] := by
  intro opts schema data out hplain hsnd hdnd _ hdata
  obtain ⟨result, hreq, hp, hout, _, _⟩ := validate_success_shape hdata
  have houtres : out = .obj result := by
    rw [hout, applyDefaults_plain hplain]
  have hdnd' : (data.entriesOf.map Prod.fst).Nodup := by
    simpa [objKeys] using hdnd
  have hsame := pass2_inr_same_errs data.entriesOf [] [] result hp
  have hres : result = pass2Stores opts schema
      (fun fn v sp => validateFieldF (schemaSize schema) opts fn v sp)
      data.entriesOf := by
    have := pass2_inr_result data.entriesOf [] [] [] result hp
      (fun k _ => by simp) hdnd'
    simpa using this
  have hfm1 : firstMissingRequired data schema = none := requiredPass_inr_nil hreq
  -- every schema field keeps its (non-missing) status on the rebuilt object
  have hfm2 : firstMissingRequired (JValue.obj result) schema = none := by
    refine firstMissingRequired_none_of_all ?_
    intro name f hmemf
    by_cases hrq : f.required = true
    · have hm1 := firstMissingRequired_none_missing hfm1 hmemf
      rw [missingRequired, hrq, Bool.true_and] at hm1
      rw [getKey_entriesOf] at hm1
      have hundef : isUndef (objGetKey data.entriesOf name) = false := by
        cases hu : isUndef (objGetKey data.entriesOf name)
        · rfl
        · rw [hu] at hm1; simp at hm1
      have hne : objGetKey data.entriesOf name ≠ .undef := by
        intro hh
        rw [hh] at hundef
        cases hundef
      have hmem : (name, objGetKey data.entriesOf name) ∈ data.entriesOf :=
        objGetKey_mem rfl hne
      have hl : lookupField schema name = some f := lookup_of_mem_nodup hsnd hmemf
      have hvf : (fun fn v sp => validateFieldF (schemaSize schema) opts fn v sp)
          name (objGetKey data.entriesOf name) f = [] :=
        (hsame name (objGetKey data.entriesOf name) hmem).2 f hl
      have hplainf : plainField f = true := plainSchema_mem hplain hmemf
      have hstore := pass2_inr_getKey opts schema
        (fun fn v sp => validateFieldF (schemaSize schema) opts fn v sp)
        data.entriesOf [] [] [] result hp hdnd' hmem hl hvf
      rw [storeValue_transform_none (plainField_transform_none hplainf)] at hstore
      rw [missingRequired, hrq, Bool.true_and, getKey_entriesOf]
      show (isUndef (objGetKey (JValue.obj result).entriesOf name) ||
        (isNull (objGetKey (JValue.obj result).entriesOf name) && !f.nullable)) = false
      have hent : (JValue.obj result).entriesOf = result := rfl
      rw [hent, hstore, hundef]
      cases hnl : isNull (objGetKey data.entriesOf name)
      · simp
      · rw [hundef, hnl] at hm1
        simpa using hm1
    · simp only [Bool.not_eq_true] at hrq
      rw [missingRequired, hrq]
      rfl
  have hT := (validateF_te_indep (schemaSize schema) opts
    ⟨false, opts.strictMode, opts.errorCollectionMode⟩ rfl rfl).2
  have hndres : (result.map Prod.fst).Nodup := by
    rw [hres]
    exact List.Nodup.sublist (pass2Stores_keys_sublist data.entriesOf) hdnd'
  have hprops : ∀ k w, (k, w) ∈ result →
      (lookupField schema k = none ∧
        (⟨false, opts.strictMode, opts.errorCollectionMode⟩ : Options).strictMode
          = false) ∨
      (∃ spec, lookupField schema k = some spec ∧
        (fun fn v sp => validateFieldF (schemaSize schema)
          ⟨false, opts.strictMode, opts.errorCollectionMode⟩ fn v sp) k w spec = []) := by
    intro k w hmemw
    rw [hres] at hmemw
    obtain ⟨v, hv, hcase⟩ := pass2Stores_mem hmemw
    rcases hcase with ⟨hl, hwv⟩ | ⟨spec, hl, hvf, hwv⟩
    · left
      exact ⟨hl, (hsame k v hv).1 hl⟩
    · right
      have hplainspec : plainField spec = true :=
        plainSchema_mem hplain (lookupField_mem hl)
      rw [storeValue_transform_none (plainField_transform_none hplainspec)] at hwv
      refine ⟨spec, hl, ?_⟩
      show validateFieldF (schemaSize schema)
        ⟨false, opts.strictMode, opts.errorCollectionMode⟩ k w spec = []
      rw [hwv, ← hT k v spec]
      exact hvf
  have hrebuild := @pass2_rebuild ⟨false, opts.strictMode, opts.errorCollectionMode⟩
    schema
    (fun fn v sp => validateFieldF (schemaSize schema)
      ⟨false, opts.strictMode, opts.errorCollectionMode⟩ fn v sp)
    rfl result hndres hprops [] (fun k _ => by simp)
  rw [houtres]
  have hv2 : validate ⟨false, opts.strictMode, opts.errorCollectionMode⟩ schema
        (.obj result) =
      validateF (schemaSize schema + 1)
        ⟨false, opts.strictMode, opts.errorCollectionMode⟩ schema (.obj result) := rfl
  rw [hv2]
  simp only [validateF, validateBody]
  simp only [show JValue.entriesOf (JValue.obj result) = result from rfl]
  simp only [requiredPass_none ⟨false, opts.strictMode, opts.errorCollectionMode⟩
    (JValue.obj result) schema hfm2, hrebuild]
  simp

/-- C9 witness: idempotence applied to a concrete successful run. -/
theorem validate_idempotent_witness :
    plainSchema schemaE = true ∧
    (schemaKeys schemaE).Nodup ∧
    (objKeys (JValue.obj [("a", .str "x"), ("b", .num 3)])).Nodup ∧
    (validate defaultOptions schemaE (.obj [("a", .str "x"), ("b", .num 3)])).valid
      = true ∧
    (validate defaultOptions schemaE (.obj [("a", .str "x"), ("b", .num 3)])).data =
      some (.obj [("a", .str "x"), ("b", .num 3)]) ∧
    (validate ⟨false, defaultOptions.strictMode, defaultOptions.errorCollectionMode⟩
      schemaE (.obj [("a", .str "x"), ("b", .num 3)])).valid = true ∧
    (validate ⟨false, defaultOptions.strictMode, defaultOptions.errorCollectionMode⟩
      schemaE (.obj [("a", .str "x"), ("b", .num 3)])).errors = [] :=
  ⟨rfl, by simp [schemaKeys, schemaE], by simp [objKeys, JValue.entriesOf], rfl, rfl,
    (validate_idempotent_on_success defaultOptions schemaE
      (.obj [("a", .str "x"), ("b", .num 3)])
      (.obj [("a", .str "x"), ("b", .num 3)])
      rfl (by simp [schemaKeys, schemaE]) (by simp [objKeys, JValue.entriesOf])
      rfl rfl).1,
    (validate_idempotent_on_success defaultOptions schemaE
      (.obj [("a", .str "x"), ("b", .num 3)])
      (.obj [("a", .str "x"), ("b", .num 3)])
      rfl (by simp [schemaKeys, schemaE]) (by simp [objKeys, JValue.entriesOf])
      rfl rfl).2⟩
